import Mathlib

/-!
Verification of the requirement-quality orchestration engine
(`agents.py`, `db.py`) of the Intelligent_Agent_Based_Model repository.

The Python code is shallowly embedded:
* JSON / Python values are modelled by `JValue` (numbers as rationals);
* Python dictionaries are association lists `List (String × JValue)`
  (objects produced by the JSON parser have deduplicated keys, matching
  Python `dict` semantics where a repeated key keeps the last value);
* fallible Python code (attribute errors, key errors, type errors) runs
  in `Except PyErr`;
* the external Gemini model service is an oracle supplying the text of
  each response; `ask_gemini`'s catch-all means downstream code always
  receives some text, so the oracle abstraction is faithful.
-/

namespace AgentModel

/-- JSON-like values (the data Python's `json.loads` can produce; numbers
are modelled as rationals, conflating Python `int` and `float`). -/
inductive JValue : Type where
  | null : JValue
  | bool : Bool → JValue
  | num : ℚ → JValue
  | str : String → JValue
  | arr : List JValue → JValue
  | obj : List (String × JValue) → JValue
deriving Repr

/-- Python exception kinds that the embedded code can raise. -/
inductive PyErr : Type where
  | keyError : String → PyErr
  | attributeError : String → PyErr
  | typeError : String → PyErr
deriving DecidableEq, Repr

mutual

/-- Boolean equality on `JValue` (hand rolled: the nested inductive does
not support derived `DecidableEq`). -/
def beqV : JValue → JValue → Bool
  | .null, .null => true
  | .bool a, .bool b => a = b
  | .num a, .num b => a = b
  | .str a, .str b => a = b
  | .arr a, .arr b => beqL a b
  | .obj a, .obj b => beqKV a b
  | _, _ => false

def beqL : List JValue → List JValue → Bool
  | [], [] => true
  | x :: xs, y :: ys => beqV x y && beqL xs ys
  | _, _ => false

def beqKV : List (String × JValue) → List (String × JValue) → Bool
  | [], [] => true
  | (k, x) :: xs, (l, y) :: ys => k = l && beqV x y && beqKV xs ys
  | _, _ => false

end

mutual

theorem beqV_iff : ∀ a b, beqV a b = true ↔ a = b
  | .null, .null => by simp [beqV]
  | .bool _, .bool _ => by simp [beqV]
  | .num _, .num _ => by simp [beqV]
  | .str _, .str _ => by simp [beqV]
  | .arr a, .arr b => by simp [beqV, beqL_iff a b]
  | .obj a, .obj b => by simp [beqV, beqKV_iff a b]
  | .null, .bool _ => by simp [beqV]
  | .null, .num _ => by simp [beqV]
  | .null, .str _ => by simp [beqV]
  | .null, .arr _ => by simp [beqV]
  | .null, .obj _ => by simp [beqV]
  | .bool _, .null => by simp [beqV]
  | .bool _, .num _ => by simp [beqV]
  | .bool _, .str _ => by simp [beqV]
  | .bool _, .arr _ => by simp [beqV]
  | .bool _, .obj _ => by simp [beqV]
  | .num _, .null => by simp [beqV]
  | .num _, .bool _ => by simp [beqV]
  | .num _, .str _ => by simp [beqV]
  | .num _, .arr _ => by simp [beqV]
  | .num _, .obj _ => by simp [beqV]
  | .str _, .null => by simp [beqV]
  | .str _, .bool _ => by simp [beqV]
  | .str _, .num _ => by simp [beqV]
  | .str _, .arr _ => by simp [beqV]
  | .str _, .obj _ => by simp [beqV]
  | .arr _, .null => by simp [beqV]
  | .arr _, .bool _ => by simp [beqV]
  | .arr _, .num _ => by simp [beqV]
  | .arr _, .str _ => by simp [beqV]
  | .arr _, .obj _ => by simp [beqV]
  | .obj _, .null => by simp [beqV]
  | .obj _, .bool _ => by simp [beqV]
  | .obj _, .num _ => by simp [beqV]
  | .obj _, .str _ => by simp [beqV]
  | .obj _, .arr _ => by simp [beqV]

theorem beqL_iff : ∀ a b, beqL a b = true ↔ a = b
  | [], [] => by simp [beqL]
  | x :: xs, y :: ys => by simp [beqL, beqV_iff x y, beqL_iff xs ys]
  | [], _ :: _ => by simp [beqL]
  | _ :: _, [] => by simp [beqL]

theorem beqKV_iff : ∀ a b, beqKV a b = true ↔ a = b
  | [], [] => by simp [beqKV]
  | (k, x) :: xs, (l, y) :: ys => by
      simp [beqKV, beqV_iff x y, beqKV_iff xs ys]
  | [], _ :: _ => by simp [beqKV]
  | _ :: _, [] => by simp [beqKV]

end

instance : DecidableEq JValue := fun a b => decidable_of_iff _ (beqV_iff a b)

instance {ε α : Type} [DecidableEq ε] [DecidableEq α] :
    DecidableEq (Except ε α) := fun a b =>
  match a, b with
  | .ok x, .ok y => decidable_of_iff (x = y) (by simp)
  | .error x, .error y => decidable_of_iff (x = y) (by simp)
  | .ok _, .error _ => isFalse (by simp)
  | .error _, .ok _ => isFalse (by simp)

namespace JValue

/-- Association-list lookup with a default: Python `d.get(k, default)`
for a genuine `dict` `d`. -/
def getD (kvs : List (String × JValue)) (k : String) (dflt : JValue) : JValue :=
  match kvs.lookup k with
  | some v => v
  | none => dflt

/-- Python `x.get(k, default)`: an `AttributeError` unless `x` is a dict. -/
def pyGet (v : JValue) (k : String) (dflt : JValue) : Except PyErr JValue :=
  match v with
  | .obj kvs => .ok (getD kvs k dflt)
  | _ => .error (.attributeError "get")

/-- Python `d[k]` on a dict: `KeyError` when the key is absent. -/
def pyGetItem (kvs : List (String × JValue)) (k : String) : Except PyErr JValue :=
  match kvs.lookup k with
  | some v => .ok v
  | none => .error (.keyError k)

/-- Python truthiness of a JSON-shaped value. -/
def truthy : JValue → Bool
  | .null => false
  | .bool b => b
  | .num q => q ≠ 0
  | .str s => s ≠ ""
  | .arr xs => ¬ xs.isEmpty
  | .obj kvs => ¬ kvs.isEmpty

/-- Is the value a Python `dict`? (`isinstance(v, dict)`). -/
def isObj : JValue → Bool
  | .obj _ => true
  | _ => false

end JValue

/-! ### String helpers: `str.lower()` and the `in` substring test -/

/-- `s.lower()` (ASCII case folding; the penalty keywords are already
lower case). -/
def lowerStr (s : String) : String :=
  ⟨s.data.map Char.toLower⟩

/-- Python `sub in hay` substring containment. -/
def strContains (hay sub : String) : Bool :=
  decide (sub.data <:+: hay.data)

/-- Decimal rendering of an integer. -/
def intRepr (n : ℤ) : String :=
  toString n

/-- Rendering of a rational number, Python-`repr` style (decimal when the
denominator divides 10^6, otherwise a fraction; only the integer case is
ever reached by the concrete inputs in this development). -/
def numRepr (q : ℚ) : String :=
  if q.den = 1 then intRepr q.num
  else if (q * 1000000).den = 1 then
    intRepr (q * 1000000).num ++ ("e-6")
  else intRepr q.num ++ ("/") ++ intRepr (q.den : ℤ)

mutual

/-- Python `repr` of a JSON-shaped value (simplified; used only inside
`str()` of non-string attribute payloads, which no claim observes). -/
def pyRepr : JValue → String
  | .null => "None"
  | .bool b => if b then "True" else "False"
  | .num q => numRepr q
  | .str s => "'" ++ s ++ "'"
  | .arr xs => "[" ++ pyReprItems xs ++ "]"
  | .obj kvs => "\x7b" ++ pyReprMembers kvs ++ "\x7d"

def pyReprItems : List JValue → String
  | [] => ""
  | [x] => pyRepr x
  | x :: xs => pyRepr x ++ (", ") ++ pyReprItems xs

def pyReprMembers : List (String × JValue) → String
  | [] => ""
  | [(k, v)] => "'" ++ k ++ "': " ++ pyRepr v
  | (k, v) :: kvs => "'" ++ k ++ "': " ++ pyRepr v ++ (", ") ++ pyReprMembers kvs

end

/-- Python `str(x)` for a JSON-shaped value. -/
def pyStr : JValue → String
  | .str s => s
  | v => pyRepr v

/-! ### Kernel-reducible rational arithmetic

The `Rat` field operations of core Lean do not reduce inside the kernel,
so the embedding computes with `mkRat` / `Rat.divInt` based mirrors,
each bridged to the mathematical operation by a lemma. -/

/-- Executable rational addition. -/
def qAdd (a b : ℚ) : ℚ := mkRat (a.num * b.den + b.num * a.den) (a.den * b.den)

/-- Executable rational subtraction. -/
def qSub (a b : ℚ) : ℚ := mkRat (a.num * b.den - b.num * a.den) (a.den * b.den)

/-- Executable rational multiplication. -/
def qMul (a b : ℚ) : ℚ := mkRat (a.num * b.num) (a.den * b.den)

/-- Executable rational division. -/
def qDiv (a b : ℚ) : ℚ := qMul a (Rat.divInt b.den b.num)

/-- Executable sum of a list of rationals. -/
def qSum (l : List ℚ) : ℚ := l.foldr qAdd 0

/-- The rational one half, in executable normal form. -/
def qHalf : ℚ := mkRat 1 2

theorem qAdd_eq (a b : ℚ) : qAdd a b = a + b := (Rat.add_def' a b).symm

theorem qSub_eq (a b : ℚ) : qSub a b = a - b := (Rat.sub_def' a b).symm

theorem qMul_eq (a b : ℚ) : qMul a b = a * b := by
  rw [qMul, Rat.mul_def, Rat.normalize_eq_mkRat]

theorem qDiv_eq (a b : ℚ) : qDiv a b = a / b := by
  rw [qDiv, qMul_eq, ← Rat.inv_def, ← Rat.div_def]

theorem qSum_eq (l : List ℚ) : qSum l = l.sum := by
  induction l with
  | nil => rfl
  | cons x xs ih =>
    show qAdd x (qSum xs) = (x :: xs).sum
    rw [qAdd_eq, ih, List.sum_cons]

theorem qHalf_eq : qHalf = 1/2 := by
  show mkRat 1 2 = 1/2
  rw [Rat.mkRat_eq_div]
  norm_num

/-! ### `round(x, 2)`: round to 2 decimal places, ties to even -/

/-- Round a rational to the nearest integer, ties to the even integer
(Python's rounding mode). Uses the executable `Rat.floor`. -/
def roundHalfEven (x : ℚ) : ℤ :=
  if qSub x x.floor < qHalf then x.floor
  else if qHalf < qSub x x.floor then x.floor + 1
  else if x.floor % 2 = 0 then x.floor else x.floor + 1

/-- Python `round(x, 2)`. -/
def round2 (x : ℚ) : ℚ :=
  qDiv (roundHalfEven (qMul x 100) : ℤ) 100

theorem ratFloor_eq (x : ℚ) : x.floor = ⌊x⌋ := by
  rw [Rat.floor_def', Rat.floor_def]

theorem roundHalfEven_eq (x : ℚ) :
    roundHalfEven x =
      if x - ⌊x⌋ < 1/2 then ⌊x⌋
      else if 1/2 < x - ⌊x⌋ then ⌊x⌋ + 1
      else if ⌊x⌋ % 2 = 0 then ⌊x⌋ else ⌊x⌋ + 1 := by
  unfold roundHalfEven
  rw [ratFloor_eq, qSub_eq, qHalf_eq]

theorem round2_eq (x : ℚ) :
    round2 x = (roundHalfEven (x * 100) : ℚ) / 100 := by
  unfold round2
  rw [qDiv_eq, qMul_eq]

/-! ### A JSON parser (the model of Python's `json.loads`)

Recursion is structural (a fuel parameter for the mutually nested value
parser), so every function reduces inside the kernel and concrete runs
can be settled by `decide`. -/

/-- JSON whitespace. -/
def isWsChar (c : Char) : Bool :=
  c = ' ' ∨ c = '\t' ∨ c = '\n' ∨ c = '\r'

/-- Drop leading JSON whitespace. -/
def skipWs : List Char → List Char
  | [] => []
  | c :: r => if isWsChar c then skipWs r else c :: r

/-- Value of a simple escape character. -/
def escChar (e : Char) : Option Char :=
  if e = '"' then some '"'
  else if e = '\\' then some '\\'
  else if e = '/' then some '/'
  else if e = 'n' then some '\n'
  else if e = 't' then some '\t'
  else if e = 'r' then some '\r'
  else if e = 'b' then some (Char.ofNat 8)
  else if e = 'f' then some (Char.ofNat 12)
  else none

/-- Value of a hex digit. -/
def hexVal (c : Char) : Option Nat :=
  if '0' ≤ c ∧ c ≤ '9' then some (c.toNat - 48)
  else if 'a' ≤ c ∧ c ≤ 'f' then some (c.toNat - 87)
  else if 'A' ≤ c ∧ c ≤ 'F' then some (c.toNat - 55)
  else none

/-- Parse the body of a JSON string after the opening quote; returns the
content and the input after the closing quote. Unescaped control
characters are rejected (strict mode); `\\uXXXX` covers the basic
multilingual plane except surrogates (Python additionally pairs
surrogates, which the model omits). -/
def parseStringBody : List Char → Option (List Char × List Char)
  | [] => none
  | '"' :: r => some ([], r)
  | '\\' :: e :: r =>
    if e = 'u' then
      match r with
      | h1 :: h2 :: h3 :: h4 :: r₃ =>
        match hexVal h1, hexVal h2, hexVal h3, hexVal h4 with
        | some a, some b, some c, some d =>
          let code := ((a * 16 + b) * 16 + c) * 16 + d
          if code < 55296 then
            (parseStringBody r₃).map (fun p => (Char.ofNat code :: p.1, p.2))
          else if 57343 < code then
            (parseStringBody r₃).map (fun p => (Char.ofNat code :: p.1, p.2))
          else none
        | _, _, _, _ => none
      | _ => none
    else
      match escChar e with
      | some c => (parseStringBody r).map (fun p => (c :: p.1, p.2))
      | none => none
  | c :: r =>
    if c.toNat < 32 ∨ c = '\\' then none
    else (parseStringBody r).map (fun p => (c :: p.1, p.2))

/-- Digit-span: the leading run of decimal digits and the remainder. -/
def spanDigits : List Char → List Char × List Char
  | [] => ([], [])
  | c :: r =>
    if c.isDigit then
      match spanDigits r with
      | (a, b) => (c :: a, b)
    else ([], c :: r)

/-- Numeric value of a digit character. -/
def digitVal (c : Char) : Nat := c.toNat - 48

/-- Decimal value of a digit run. -/
def digitsToNat (l : List Char) : Nat :=
  l.foldl (fun a c => 10 * a + digitVal c) 0

/-- Executable power of ten. -/
def qPowTen : Nat → ℚ
  | 0 => 1
  | e + 1 => qMul 10 (qPowTen e)

/-- Parse the digits of an exponent and apply it. -/
def parseExpDigits (v : ℚ) (negExp : Bool) (l : List Char) :
    Option (ℚ × List Char) :=
  match spanDigits l with
  | ([], _) => none
  | (ds, rest) =>
    let e := digitsToNat ds
    some (if negExp then qDiv v (qPowTen e) else qMul v (qPowTen e), rest)

/-- Parse an optional exponent sign then its digits. -/
def parseExpAux (v : ℚ) (l : List Char) : Option (ℚ × List Char) :=
  match l with
  | '+' :: r => parseExpDigits v false r
  | '-' :: r => parseExpDigits v true r
  | r => parseExpDigits v false r

/-- Parse an optional exponent part. -/
def parseExp (v : ℚ) (l : List Char) : Option (ℚ × List Char) :=
  match l with
  | 'e' :: r => parseExpAux v r
  | 'E' :: r => parseExpAux v r
  | _ => some (v, l)

/-- Parse the digits of a JSON number after the optional sign. -/
def parseNumAux (neg : Bool) (l₁ : List Char) : Option (ℚ × List Char) :=
  match spanDigits l₁ with
  | ([], _) => none
  | (ip, l₂) =>
    if 1 < ip.length ∧ ip.headD 'x' = '0' then none
    else
      match l₂ with
      | '.' :: r =>
        (match spanDigits r with
         | ([], _) => none
         | (fp, l₃) =>
           let v := qAdd ((digitsToNat ip : ℕ) : ℚ)
             (qDiv ((digitsToNat fp : ℕ) : ℚ) (qPowTen fp.length))
           parseExp (if neg then -v else v) l₃)
      | _ =>
        parseExp (if neg then -(((digitsToNat ip : ℕ) : ℚ))
                  else ((digitsToNat ip : ℕ) : ℚ)) l₂

/-- Parse a JSON number (optional sign, no leading zeros, optional
fraction and exponent). -/
def parseNumber (l : List Char) : Option (ℚ × List Char) :=
  if l.head? = some '-' then parseNumAux true l.tail else parseNumAux false l

/-- Update key `k` to `v` the way a Python dict does: replace in place if
present, else append. -/
def upsert (kvs : List (String × JValue)) (k : String) (v : JValue) :
    List (String × JValue) :=
  if kvs.any (fun kv => kv.1 = k) then
    kvs.map (fun kv => if kv.1 = k then (kv.1, v) else kv)
  else kvs ++ [(k, v)]

/-- Build a Python dict from parsed members (later duplicate keys
overwrite earlier values in place). -/
def mkPyDict (members : List (String × JValue)) : List (String × JValue) :=
  members.foldl (fun acc kv => upsert acc kv.1 kv.2) []

mutual

/-- Parse one JSON value (fuelled). -/
def parseVal : Nat → List Char → Option (JValue × List Char)
  | 0, _ => none
  | Nat.succ fuel, l =>
    match skipWs l with
    | 'n' :: 'u' :: 'l' :: 'l' :: r => some (.null, r)
    | 't' :: 'r' :: 'u' :: 'e' :: r => some (.bool true, r)
    | 'f' :: 'a' :: 'l' :: 's' :: 'e' :: r => some (.bool false, r)
    | '"' :: r => (parseStringBody r).map (fun p => (.str ⟨p.1⟩, p.2))
    | '[' :: r =>
      (match skipWs r with
       | ']' :: r₂ => some (.arr [], r₂)
       | r₂ => (parseItems fuel r₂).map (fun p => (.arr p.1, p.2)))
    | '{' :: r =>
      (match skipWs r with
       | '}' :: r₂ => some (.obj [], r₂)
       | r₂ => (parseMembers fuel r₂).map (fun p => (.obj (mkPyDict p.1), p.2)))
    | l₂ => (parseNumber l₂).map (fun p => (.num p.1, p.2))

/-- Parse the elements of a non-empty JSON array, including the closing
bracket. -/
def parseItems : Nat → List Char → Option (List JValue × List Char)
  | 0, _ => none
  | Nat.succ fuel, l =>
    match parseVal fuel l with
    | none => none
    | some (v, r) =>
      match skipWs r with
      | ',' :: r₂ => (parseItems fuel r₂).map (fun p => (v :: p.1, p.2))
      | ']' :: r₂ => some ([v], r₂)
      | _ => none

/-- Parse the members of a non-empty JSON object, including the closing
brace. -/
def parseMembers : Nat → List Char →
    Option (List (String × JValue) × List Char)
  | 0, _ => none
  | Nat.succ fuel, l =>
    match skipWs l with
    | '"' :: r =>
      (match parseStringBody r with
       | none => none
       | some (k, r₁) =>
         match skipWs r₁ with
         | ':' :: r₂ =>
           (match parseVal fuel r₂ with
            | none => none
            | some (v, r₃) =>
              match skipWs r₃ with
              | ',' :: r₄ =>
                (parseMembers fuel r₄).map (fun p => ((⟨k⟩, v) :: p.1, p.2))
              | '}' :: r₄ => some ([(⟨k⟩, v)], r₄)
              | _ => none)
         | _ => none)
    | _ => none

end

/-- Decode a character list as one JSON document (whitespace-padded),
with ample fuel. -/
def jsonDecodeChars (l : List Char) : Option JValue :=
  match parseVal (2 * l.length + 2) l with
  | some (v, rest) => if skipWs rest = [] then some v else none
  | none => none

/-- Python `json.loads` on a string: one JSON document, or a decode
error (`none`). -/
def jsonDecode (s : String) : Option JValue :=
  jsonDecodeChars s.data

/-! ### The regex candidate extraction of `safe_json_loads`

`re.search(r"\x7b.*\x7d|\[.*\]", text, re.DOTALL)` finds the leftmost
position holding `{` with some later `}` (greedy to the last one), or
failing that at this position, `[` with some later `]`. -/

/-- The prefix of the input up to and including the LAST occurrence of
`c`, if any. -/
def takeToLast (c : Char) : List Char → Option (List Char)
  | [] => none
  | x :: r =>
    match takeToLast c r with
    | some t => some (x :: t)
    | none => if x = c then some [x] else none

/-- The leftmost, greedy match of `\x7b.*\x7d|\[.*\]` under `re.DOTALL`. -/
def findCandidate : List Char → Option (List Char)
  | [] => none
  | c :: r =>
    if c = '{' then
      match takeToLast '}' r with
      | some t => some (c :: t)
      | none => findCandidate r
    else if c = '[' then
      match takeToLast ']' r with
      | some t => some (c :: t)
      | none => findCandidate r
    else findCandidate r

/-- The `safe_json_loads` failure payload when no JSON-looking substring
exists. -/
def errNoJson (text : String) : JValue :=
  .obj [(("error"), .str "No JSON encontrado"),
        (("raw_response"), .str text)]

/-- The `safe_json_loads` failure payload when the candidate substring
does not decode (the `detalle` field carries `str(e)` of the decode
exception, modelled as a fixed diagnostic). -/
def errInvalid (text : String) : JValue :=
  .obj [(("error"), .str "JSON inválido"),
        (("detalle"), .str "Expecting value"),
        (("raw_response"), .str text)]

/-- `safe_json_loads` (agents.py lines 36-44): extract the regex
candidate, strictly decode it, and fall back to an error payload that
keeps the raw text. -/
def safe_json_loads (text : String) : JValue :=
  match findCandidate text.data with
  | some sub =>
    match jsonDecodeChars sub with
    | some v => v
    | none => errInvalid text
  | none => errNoJson text

/-- Field lookup on an object-shaped value. -/
def lookupField (v : JValue) (k : String) : Option JValue :=
  match v with
  | .obj kvs => kvs.lookup k
  | _ => none


theorem roundHalfEven_cases (x : ℚ) :
    roundHalfEven x = ⌊x⌋ ∨ roundHalfEven x = ⌊x⌋ + 1 := by
  rw [roundHalfEven_eq]
  split_ifs <;> simp

theorem floor_le_roundHalfEven (x : ℚ) : ⌊x⌋ ≤ roundHalfEven x := by
  rcases roundHalfEven_cases x with h | h <;> omega

theorem roundHalfEven_le_ceil (x : ℚ) : roundHalfEven x ≤ ⌈x⌉ := by
  have hfc := Int.floor_le_ceil x
  have hfl := Int.floor_le x
  have hlc := Int.le_ceil x
  have hstep : (⌊x⌋ : ℚ) < x → ⌊x⌋ + 1 ≤ ⌈x⌉ := by
    intro h
    have h2 : (⌊x⌋ : ℚ) < (⌈x⌉ : ℚ) := lt_of_lt_of_le h hlc
    have h3 : ⌊x⌋ < ⌈x⌉ := by exact_mod_cast h2
    omega
  rw [roundHalfEven_eq]
  split_ifs with h1 h2 h3
  · exact hfc
  · exact hstep (by linarith)
  · exact hfc
  · exact hstep (by linarith)

theorem roundHalfEven_nonneg {x : ℚ} (hx : 0 ≤ x) : 0 ≤ roundHalfEven x := by
  have := floor_le_roundHalfEven x
  have h0 : (0 : ℤ) ≤ ⌊x⌋ := Int.floor_nonneg.mpr hx
  omega

theorem roundHalfEven_mono {x y : ℚ} (h : x ≤ y) :
    roundHalfEven x ≤ roundHalfEven y := by
  rcases lt_or_eq_of_le (Int.floor_mono h) with hf | hf
  · have h1 : roundHalfEven x ≤ ⌊x⌋ + 1 := by
      rcases roundHalfEven_cases x with h2 | h2 <;> omega
    have h2 := floor_le_roundHalfEven y
    omega
  · simp only [roundHalfEven_eq]
    rw [← hf]
    split_ifs <;> first | omega | linarith

theorem round2_nonneg {x : ℚ} (hx : 0 ≤ x) : 0 ≤ round2 x := by
  rw [round2_eq]
  have h : (0 : ℤ) ≤ roundHalfEven (x * 100) :=
    roundHalfEven_nonneg (by positivity)
  have h2 : (0 : ℚ) ≤ (roundHalfEven (x * 100) : ℚ) := by exact_mod_cast h
  positivity

theorem round2_le_hundred {x : ℚ} (hx : x ≤ 100) : round2 x ≤ 100 := by
  rw [round2_eq]
  have h1 : roundHalfEven (x * 100) ≤ ⌈x * 100⌉ := roundHalfEven_le_ceil _
  have h2 : ⌈x * 100⌉ ≤ 10000 := Int.ceil_le.mpr (by push_cast; linarith)
  have h3 : (roundHalfEven (x * 100) : ℚ) ≤ 10000 := by
    exact_mod_cast le_trans h1 h2
  linarith

theorem round2_mono {x y : ℚ} (h : x ≤ y) : round2 x ≤ round2 y := by
  rw [round2_eq, round2_eq]
  have h1 := roundHalfEven_mono (by linarith : x * 100 ≤ y * 100)
  have h2 : (roundHalfEven (x * 100) : ℚ) ≤ (roundHalfEven (y * 100) : ℚ) := by
    exact_mod_cast h1
  linarith

/-- `round2` always produces a value with at most two decimal places. -/
theorem round2_twoDecimals (x : ℚ) : ∃ m : ℤ, round2 x = (m : ℚ) / 100 :=
  ⟨roundHalfEven (x * 100), round2_eq x⟩

/-! ### Score calibration: `ajustar_puntaje` (agents.py lines 50-83) -/

/-- Red-flag keywords penalised in an attribute's `valor` (+20). -/
def valorKeywords : List String := ["ambiguo", "incompleto", "baja", "no"]

/-- Red-flag keywords penalised in an attribute's `sugerencia` (+15). -/
def sugKeywords15 : List String := ["reemplazar", "no medible", "ajustar", "reformule"]

/-- Vague-quality keywords penalised in an attribute's `sugerencia` (+20). -/
def sugKeywords20 : List String := ["rápido", "eficiente", "adecuado"]

/-- The cumulative penalty contributed by one counted attribute payload
(agents.py lines 67-76). -/
def perAttrPenalty (datos : List (String × JValue)) : ℚ :=
  qAdd (qAdd
    (if valorKeywords.any
        (fun p => strContains (lowerStr (pyStr (JValue.getD datos ("valor") (.str "")))) p)
      then 20 else 0)
    (if sugKeywords15.any
        (fun p => strContains (lowerStr (pyStr (JValue.getD datos ("sugerencia") (.str "")))) p)
      then 15 else 0))
    (if sugKeywords20.any
        (fun p => strContains (lowerStr (pyStr (JValue.getD datos ("sugerencia") (.str "")))) p)
      then 20 else 0)

/-- The attributes counted by the calibration loop: the entries of
`atributos` whose payload is a dict, keys kept (agents.py lines 62-65). -/
def countedPairs (items : List (String × JValue)) :
    List (String × List (String × JValue)) :=
  items.filterMap (fun kv => match kv.2 with
    | .obj d => some (kv.1, d)
    | _ => none)

/-- Python numeric coercion for `puntaje_base - penalizacion/total_attrs`:
numbers and booleans take part in arithmetic, anything else raises
`TypeError`. -/
def pyNumCoerce : JValue → Except PyErr ℚ
  | .num q => .ok q
  | .bool b => .ok (if b then 1 else 0)
  | _ => .error (.typeError "unsupported operand type for -")

/-- `ajustar_puntaje` (agents.py lines 50-83): recalibrates a review's
self-reported score by penalising red-flag keywords. Non-dict input
returns 0; a non-dict `atributos` payload raises `AttributeError` at
`.items()`; a non-numeric `porcentaje` raises `TypeError` at the
subtraction. -/
def ajustar_puntaje (analisis_agente : JValue) : Except PyErr ℚ :=
  match analisis_agente with
  | .obj kvs =>
    match JValue.getD kvs ("atributos") (.obj []) with
    | .obj items =>
      if (countedPairs items).length = 0 then .ok 0
      else
        match pyNumCoerce (JValue.getD kvs ("porcentaje") (.num 0)) with
        | .ok puntaje_base =>
            .ok (round2 (max 0 (qSub puntaje_base
              (qDiv (qSum ((countedPairs items).map (fun p => perAttrPenalty p.2)))
                (((countedPairs items).length : ℕ) : ℚ)))))
        | .error e => .error e
    | _ => .error (.attributeError "items")
  | _ => .ok 0

/-- Modelled from the claim's words (spec §4.3): calibration of an
attribute map against a base percentage. Counted attributes are those
whose payload is a mapping; penalties 20 / 15 / 20 accumulate per counted
attribute; zero counted attributes give 0; otherwise
`max(0, base - total/attrCount)` rounded to two decimals. -/
def calibrateSpec (attrMap : List (String × JValue)) (basePercentage : ℚ) : ℚ :=
  let counted := attrMap.filterMap (fun kv => match kv.2 with
    | .obj d => some (kv.1, d)
    | _ => none)
  let attrCount : ℕ := counted.length
  let totalPenalty : ℚ :=
    qSum (counted.map (fun p =>
      qAdd (qAdd
        (if valorKeywords.any (fun p' =>
            strContains (lowerStr (pyStr (JValue.getD p.2 ("valor") (.str "")))) p')
          then 20 else 0)
        (if sugKeywords15.any (fun p' =>
            strContains (lowerStr (pyStr (JValue.getD p.2 ("sugerencia") (.str "")))) p')
          then 15 else 0))
        (if sugKeywords20.any (fun p' =>
            strContains (lowerStr (pyStr (JValue.getD p.2 ("sugerencia") (.str "")))) p')
          then 20 else 0)))
  if attrCount = 0 then 0
  else round2 (max 0 (qSub basePercentage (qDiv totalPenalty (attrCount : ℚ))))

theorem perAttrPenalty_nonneg (d : List (String × JValue)) : 0 ≤ perAttrPenalty d := by
  unfold perAttrPenalty
  rw [qAdd_eq, qAdd_eq]
  split_ifs <;> norm_num

/-- The base percentage a review carries (the `porcentaje` field, default
0, coerced as Python arithmetic would). -/
def basePercent (v : JValue) : ℚ :=
  match v with
  | .obj kvs =>
    match JValue.getD kvs ("porcentaje") (.num 0) with
    | .num q => q
    | .bool b => if b then 1 else 0
    | _ => 0
  | _ => 0

/-! ### Keyword-append operations used by the monotonicity claim -/

/-- Append `w` to a string value; leave any other value unchanged. -/
def appendStrVal (v : JValue) (w : String) : JValue :=
  match v with
  | .str s => .str (s ++ w)
  | v => v

/-- Apply `f` to the value stored at key `k` (leaving other entries
unchanged). -/
def mapAtKey (kvs : List (String × JValue)) (k : String)
    (f : JValue → JValue) : List (String × JValue) :=
  kvs.map (fun kv => if kv.1 = k then (kv.1, f kv.2) else kv)

/-- Append `w` to the string stored at field `fld` of an attribute
payload. -/
def appendToField (d : List (String × JValue)) (fld w : String) :
    List (String × JValue) :=
  mapAtKey d fld (fun v => appendStrVal v w)

/-- Within an attribute map, append `w` to field `fld` of the attribute
named `k` (non-dict payloads are left unchanged). -/
def appendInAttr (items : List (String × JValue)) (k fld w : String) :
    List (String × JValue) :=
  mapAtKey items k (fun v => match v with
    | .obj d => .obj (appendToField d fld w)
    | v => v)

/-- Replace the value stored at key `k`. -/
def replaceKey (kvs : List (String × JValue)) (k : String) (v : JValue) :
    List (String × JValue) :=
  mapAtKey kvs k (fun _ => v)

theorem lookup_mapAtKey_ne (kvs : List (String × JValue)) (k k' : String)
    (f : JValue → JValue) (h : k' ≠ k) :
    (mapAtKey kvs k f).lookup k' = kvs.lookup k' := by
  induction kvs with
  | nil => rfl
  | cons kv rest ih =>
    obtain ⟨a, b⟩ := kv
    simp only [mapAtKey, List.map_cons]
    by_cases hk : a = k
    · rw [if_pos hk]
      have hne : (k' == a) = false := beq_eq_false_iff_ne.mpr (by rw [hk]; exact h)
      simp only [List.lookup, hne]
      exact ih
    · rw [if_neg hk]
      simp only [List.lookup]
      cases hbe : (k' == a)
      · exact ih
      · rfl

theorem lookup_mapAtKey_eq (kvs : List (String × JValue)) (k : String)
    (u : JValue) (f : JValue → JValue) (h : kvs.lookup k = some u) :
    (mapAtKey kvs k f).lookup k = some (f u) := by
  induction kvs with
  | nil => simp [List.lookup] at h
  | cons kv rest ih =>
    obtain ⟨a, b⟩ := kv
    simp only [mapAtKey, List.map_cons]
    by_cases hk : a = k
    · rw [if_pos hk]
      have hbe : (k == a) = true := beq_iff_eq.mpr hk.symm
      simp only [List.lookup, hbe] at h ⊢
      exact congrArg (some ∘ f) (Option.some.inj h)
    · rw [if_neg hk]
      have hbe : (k == a) = false := beq_eq_false_iff_ne.mpr (fun hh => hk hh.symm)
      simp only [List.lookup, hbe] at h ⊢
      exact ih h

theorem lookup_mapAtKey_none (kvs : List (String × JValue)) (k : String)
    (f : JValue → JValue) (h : kvs.lookup k = none) :
    (mapAtKey kvs k f).lookup k = none := by
  induction kvs with
  | nil => rfl
  | cons kv rest ih =>
    obtain ⟨a, b⟩ := kv
    simp only [mapAtKey, List.map_cons]
    by_cases hk : a = k
    · have hbe : (k == a) = true := beq_iff_eq.mpr hk.symm
      simp only [List.lookup, hbe] at h
      exact Option.noConfusion h
    · rw [if_neg hk]
      have hbe : (k == a) = false := beq_eq_false_iff_ne.mpr (fun hh => hk hh.symm)
      simp only [List.lookup, hbe] at h ⊢
      exact ih h

theorem lowerStr_append (s w : String) :
    lowerStr (s ++ w) = lowerStr s ++ lowerStr w := by
  unfold lowerStr
  apply String.ext
  show ((s ++ w).data).map Char.toLower
      = ((⟨s.data.map Char.toLower⟩ : String) ++ ⟨w.data.map Char.toLower⟩).data
  rw [String.data_append, String.data_append, List.map_append]

theorem strContains_append (s w p : String) (h : strContains s p = true) :
    strContains (s ++ w) p = true := by
  unfold strContains at h ⊢
  rw [String.data_append]
  exact decide_eq_true
    ((of_decide_eq_true h).trans ((List.prefix_append s.data w.data).isInfix))

theorem field_append_mono (d : List (String × JValue)) (fld w fname p : String)
    (h : strContains (lowerStr (pyStr (JValue.getD d fname (.str "")))) p = true) :
    strContains
      (lowerStr (pyStr (JValue.getD (appendToField d fld w) fname (.str "")))) p
      = true := by
  by_cases hf : fname = fld
  · subst hf
    unfold JValue.getD at h ⊢
    cases hl : d.lookup fname with
    | none =>
      rw [appendToField, lookup_mapAtKey_none d fname _ hl]
      rw [hl] at h
      exact h
    | some u =>
      rw [appendToField, lookup_mapAtKey_eq d fname u _ hl]
      rw [hl] at h
      cases u with
      | str s =>
        show strContains (lowerStr (pyStr (JValue.str (s ++ w)))) p = true
        show strContains (lowerStr (s ++ w)) p = true
        rw [lowerStr_append]
        exact strContains_append _ _ _ h
      | null => exact h
      | bool b => exact h
      | num q => exact h
      | arr xs => exact h
      | obj kvs => exact h
  · rw [appendToField]
    unfold JValue.getD at h ⊢
    rw [lookup_mapAtKey_ne d fld fname _ hf]
    exact h

theorem if_flag_mono {c c' : Bool} (h : c = true → c' = true) (x : ℚ)
    (hx : 0 ≤ x) :
    (if c = true then x else 0) ≤ (if c' = true then x else 0) := by
  cases c <;> cases c' <;> simp_all

theorem perAttrPenalty_le_append (d : List (String × JValue)) (fld w : String) :
    perAttrPenalty d ≤ perAttrPenalty (appendToField d fld w) := by
  have hmono : ∀ (fname : String) (kws : List String),
      kws.any (fun p =>
        strContains (lowerStr (pyStr (JValue.getD d fname (.str "")))) p) = true →
      kws.any (fun p =>
        strContains (lowerStr (pyStr (JValue.getD (appendToField d fld w) fname (.str "")))) p) = true := by
    intro fname kws h
    rw [List.any_eq_true] at h ⊢
    obtain ⟨p, hp, hc⟩ := h
    exact ⟨p, hp, field_append_mono d fld w fname p hc⟩
  unfold perAttrPenalty
  rw [qAdd_eq, qAdd_eq, qAdd_eq, qAdd_eq]
  refine add_le_add (add_le_add ?_ ?_) ?_
  · exact if_flag_mono (hmono ("valor") valorKeywords) 20 (by norm_num)
  · exact if_flag_mono (hmono ("sugerencia") sugKeywords15) 15 (by norm_num)
  · exact if_flag_mono (hmono ("sugerencia") sugKeywords20) 20 (by norm_num)

theorem countedPairs_appendInAttr (items : List (String × JValue))
    (k fld w : String) :
    countedPairs (appendInAttr items k fld w)
      = (countedPairs items).map
          (fun p => if p.1 = k then (p.1, appendToField p.2 fld w) else p) := by
  simp only [countedPairs, appendInAttr, mapAtKey]
  induction items with
  | nil => rfl
  | cons kv rest ih =>
    obtain ⟨a, v⟩ := kv
    simp only [List.map_cons]
    by_cases hk : a = k
    · rw [if_pos hk]
      cases v with
      | obj d =>
        simp only [List.filterMap_cons, List.map_cons]
        rw [ih]
        simp [hk]
      | null => simp only [List.filterMap_cons]; exact ih
      | bool b => simp only [List.filterMap_cons]; exact ih
      | num q => simp only [List.filterMap_cons]; exact ih
      | str s => simp only [List.filterMap_cons]; exact ih
      | arr xs => simp only [List.filterMap_cons]; exact ih
    · rw [if_neg hk]
      cases v with
      | obj d =>
        simp only [List.filterMap_cons, List.map_cons]
        rw [ih]
        simp [hk]
      | null => simp only [List.filterMap_cons]; exact ih
      | bool b => simp only [List.filterMap_cons]; exact ih
      | num q => simp only [List.filterMap_cons]; exact ih
      | str s => simp only [List.filterMap_cons]; exact ih
      | arr xs => simp only [List.filterMap_cons]; exact ih

/-- Characterization of `ajustar_puntaje` on a review whose `atributos`
payload is a dict with at least one counted attribute and whose
`porcentaje` coerces to a number. -/
theorem ajustar_obj_eq (kvs items : List (String × JValue)) (b : ℚ)
    (hat : JValue.getD kvs ("atributos") (.obj []) = .obj items)
    (hb : pyNumCoerce (JValue.getD kvs ("porcentaje") (.num 0)) = .ok b)
    (hne : (countedPairs items).length ≠ 0) :
    ajustar_puntaje (.obj kvs)
      = .ok (round2 (max 0 (b -
          ((countedPairs items).map (fun p => perAttrPenalty p.2)).sum
            / (((countedPairs items).length : ℕ) : ℚ)))) := by
  simp only [ajustar_puntaje, hat, hb, if_neg hne]
  rw [qSub_eq, qDiv_eq, qSum_eq]

/-- `ajustar_puntaje` on a review with a dict `atributos` payload having
no counted attribute. -/
theorem ajustar_obj_zero (kvs items : List (String × JValue))
    (hat : JValue.getD kvs ("atributos") (.obj []) = .obj items)
    (hz : (countedPairs items).length = 0) :
    ajustar_puntaje (.obj kvs) = .ok 0 := by
  simp only [ajustar_puntaje, hat, if_pos hz]

/-- `ajustar_puntaje` propagates the `TypeError` of a non-numeric
`porcentaje`. -/
theorem ajustar_obj_err (kvs items : List (String × JValue)) (e : PyErr)
    (hat : JValue.getD kvs ("atributos") (.obj []) = .obj items)
    (hne : (countedPairs items).length ≠ 0)
    (hb : pyNumCoerce (JValue.getD kvs ("porcentaje") (.num 0)) = .error e) :
    ajustar_puntaje (.obj kvs) = .error e := by
  simp only [ajustar_puntaje, hat, if_neg hne, hb]

/-- `ajustar_puntaje` raises `AttributeError` when the `atributos` payload
is not a dict (`.items()` on a non-dict). -/
theorem ajustar_obj_items_err (kvs : List (String × JValue))
    (hat : (JValue.getD kvs ("atributos") (.obj [])).isObj = false) :
    ajustar_puntaje (.obj kvs) = .error (.attributeError "items") := by
  cases h : JValue.getD kvs ("atributos") (.obj []) with
  | obj items => rw [h] at hat; exact absurd hat (by simp [JValue.isObj])
  | null => simp only [ajustar_puntaje, h]
  | bool b => simp only [ajustar_puntaje, h]
  | num q => simp only [ajustar_puntaje, h]
  | str s => simp only [ajustar_puntaje, h]
  | arr xs => simp only [ajustar_puntaje, h]

/-- **C2**: on a review mapping whose `atributos` payload is a mapping and
whose `porcentaje` field is a number, the calibrated score is exactly the
specification formula: attributes with mapping payloads are counted,
penalties 20/15/20 for the three keyword families accumulate, a zero
attribute count yields 0, and otherwise the score is
`max(0, basePercentage - totalPenalty/attrCount)` rounded to 2 decimals. -/
theorem c2_calibrated_score_formula (kvs items : List (String × JValue)) (b : ℚ)
    (hat : JValue.getD kvs ("atributos") (.obj []) = .obj items)
    (hb : JValue.getD kvs ("porcentaje") (.num 0) = .num b) :
    ajustar_puntaje (.obj kvs) = .ok (calibrateSpec items b) := by
  have hz' := fun hz => ajustar_obj_zero kvs items hat hz
  by_cases hz : (countedPairs items).length = 0
  · rw [hz' hz]
    unfold countedPairs at hz
    simp only [calibrateSpec]
    rw [if_pos hz]
  · have hbc : pyNumCoerce (JValue.getD kvs ("porcentaje") (.num 0)) = .ok b := by
      rw [hb]
      rfl
    rw [ajustar_obj_eq kvs items b hat hbc hz]
    unfold countedPairs at hz ⊢
    simp only [calibrateSpec]
    rw [if_neg hz, qSub_eq, qDiv_eq, qSum_eq]
    rfl

/-- Witness for C2 at a concrete review. -/
theorem c2_witness :
    JValue.getD
        [(("atributos"), JValue.obj [(("claridad"),
            JValue.obj [(("valor"), JValue.str "ambigua"),
                        (("sugerencia"), JValue.str "reformule la frase")])]),
         (("porcentaje"), JValue.num 70)]
        ("atributos") (.obj [])
      = .obj [(("claridad"),
          JValue.obj [(("valor"), JValue.str "ambigua"),
                      (("sugerencia"), JValue.str "reformule la frase")])]
    ∧ JValue.getD
        [(("atributos"), JValue.obj [(("claridad"),
            JValue.obj [(("valor"), JValue.str "ambigua"),
                        (("sugerencia"), JValue.str "reformule la frase")])]),
         (("porcentaje"), JValue.num 70)]
        ("porcentaje") (.num 0) = .num 70
    ∧ ajustar_puntaje (.obj
        [(("atributos"), JValue.obj [(("claridad"),
            JValue.obj [(("valor"), JValue.str "ambigua"),
                        (("sugerencia"), JValue.str "reformule la frase")])]),
         (("porcentaje"), JValue.num 70)])
      = .ok (calibrateSpec
          [(("claridad"),
            JValue.obj [(("valor"), JValue.str "ambigua"),
                        (("sugerencia"), JValue.str "reformule la frase")])] 70) :=
  ⟨by decide, by decide,
   c2_calibrated_score_formula _ _ 70 (by decide) (by decide)⟩

/-- **C6**: score calibration is monotone non-increasing under adding a
keyword: appending any string (in particular any penalty keyword) to the
`valor` or `sugerencia` string of any attribute never increases the
calibrated score, for a fixed review. -/
theorem c6_calibration_monotone (kvs items : List (String × JValue))
    (k fld w : String) (s s' : ℚ)
    (hat : kvs.lookup ("atributos") = some (.obj items))
    (hfld : fld = ("valor") ∨ fld = ("sugerencia"))
    (h : ajustar_puntaje (.obj kvs) = .ok s)
    (h' : ajustar_puntaje (.obj (replaceKey kvs ("atributos")
        (.obj (appendInAttr items k fld w)))) = .ok s') :
    s' ≤ s := by
  have hat' : JValue.getD kvs ("atributos") (.obj []) = .obj items := by
    unfold JValue.getD
    rw [hat]
  have hat2 : JValue.getD (replaceKey kvs ("atributos")
      (.obj (appendInAttr items k fld w))) ("atributos") (.obj [])
      = .obj (appendInAttr items k fld w) := by
    unfold JValue.getD replaceKey
    rw [lookup_mapAtKey_eq kvs _ (.obj items) _ hat]
  have hp : JValue.getD (replaceKey kvs ("atributos")
      (.obj (appendInAttr items k fld w))) ("porcentaje") (.num 0)
      = JValue.getD kvs ("porcentaje") (.num 0) := by
    unfold JValue.getD replaceKey
    rw [lookup_mapAtKey_ne kvs _ _ _ (by decide)]
  have hlen : (countedPairs (appendInAttr items k fld w)).length
      = (countedPairs items).length := by
    rw [countedPairs_appendInAttr, List.length_map]
  by_cases hz : (countedPairs items).length = 0
  · rw [ajustar_obj_zero _ _ hat' hz] at h
    rw [ajustar_obj_zero _ _ hat2 (hlen.trans hz)] at h'
    rw [← Except.ok.inj h, ← Except.ok.inj h']
  · cases hbc : pyNumCoerce (JValue.getD kvs ("porcentaje") (.num 0)) with
    | error e =>
      rw [ajustar_obj_err _ _ e hat' hz hbc] at h
      exact absurd h (by simp)
    | ok b =>
      rw [ajustar_obj_eq _ _ b hat' hbc hz] at h
      rw [ajustar_obj_eq _ _ b hat2 (hp ▸ hbc)
        (by rw [hlen]; exact hz)] at h'
      rw [← Except.ok.inj h, ← Except.ok.inj h']
      have hpen : ((countedPairs items).map (fun p => perAttrPenalty p.2)).sum
          ≤ ((countedPairs (appendInAttr items k fld w)).map
              (fun p => perAttrPenalty p.2)).sum := by
        rw [countedPairs_appendInAttr, List.map_map]
        apply List.sum_le_sum
        intro p hmem
        by_cases hpk : p.1 = k
        · simp only [Function.comp_apply, if_pos hpk]
          exact perAttrPenalty_le_append p.2 fld w
        · simp only [Function.comp_apply, if_neg hpk]
          exact le_refl _
      have hn : (0 : ℚ) < (((countedPairs items).length : ℕ) : ℚ) := by
        exact_mod_cast Nat.pos_of_ne_zero hz
      apply round2_mono
      apply max_le_max (le_refl 0)
      apply sub_le_sub_left
      rw [hlen]
      exact (div_le_div_iff_of_pos_right hn).mpr hpen

/-- Non-dict inputs short-circuit calibration to 0
(the `isinstance` guard, agents.py line 58). -/
theorem ajustar_nonobj (v : JValue) (hv : v.isObj = false) :
    ajustar_puntaje v = .ok 0 := by
  cases v with
  | obj kvs => simp [JValue.isObj] at hv
  | null => rfl
  | bool b => rfl
  | num q => rfl
  | str s => rfl
  | arr xs => rfl

/-- **C7** (amended): every calibrated score is ≥ 0 and is an exact
two-decimal value; it is ≤ 100 whenever the review's base percentage is
≤ 100 (the code does not clamp a base percentage above 100, see the
counterexample). -/
theorem c7_score_range (v : JValue) (s : ℚ)
    (h : ajustar_puntaje v = .ok s) (hb : basePercent v ≤ 100) :
    0 ≤ s ∧ s ≤ 100 ∧ ∃ m : ℤ, s = (m : ℚ) / 100 := by
  have hzero : (0:ℚ) ≤ 0 ∧ (0:ℚ) ≤ 100 ∧ ∃ m : ℤ, (0:ℚ) = (m : ℚ) / 100 :=
    ⟨le_refl 0, by norm_num, 0, by norm_num⟩
  cases v with
  | null => rw [ajustar_nonobj .null rfl] at h; exact (Except.ok.inj h) ▸ hzero
  | bool b => rw [ajustar_nonobj (.bool b) rfl] at h; exact (Except.ok.inj h) ▸ hzero
  | num q => rw [ajustar_nonobj (.num q) rfl] at h; exact (Except.ok.inj h) ▸ hzero
  | str t => rw [ajustar_nonobj (.str t) rfl] at h; exact (Except.ok.inj h) ▸ hzero
  | arr xs => rw [ajustar_nonobj (.arr xs) rfl] at h; exact (Except.ok.inj h) ▸ hzero
  | obj kvs =>
    cases hat : JValue.getD kvs ("atributos") (.obj []) with
    | obj items =>
      by_cases hz : (countedPairs items).length = 0
      · rw [ajustar_obj_zero kvs items hat hz] at h
        exact (Except.ok.inj h) ▸ hzero
      · cases hbc : pyNumCoerce (JValue.getD kvs ("porcentaje") (.num 0)) with
        | error e =>
          rw [ajustar_obj_err kvs items e hat hz hbc] at h
          exact absurd h (by simp)
        | ok b =>
          rw [ajustar_obj_eq kvs items b hat hbc hz] at h
          have hb100 : b ≤ 100 := by
            unfold basePercent at hb
            cases hgd : JValue.getD kvs ("porcentaje") (.num 0) with
            | num q =>
              rw [hgd] at hbc
              simp only [hgd] at hb
              simp only [pyNumCoerce, Except.ok.injEq] at hbc
              exact hbc ▸ hb
            | bool c =>
              rw [hgd] at hbc
              simp only [hgd] at hb
              simp only [pyNumCoerce, Except.ok.injEq] at hbc
              cases c with
              | true => rw [← hbc]; norm_num
              | false => rw [← hbc]; norm_num
            | null => rw [hgd] at hbc; exact absurd hbc (by simp [pyNumCoerce])
            | str t => rw [hgd] at hbc; exact absurd hbc (by simp [pyNumCoerce])
            | arr xs => rw [hgd] at hbc; exact absurd hbc (by simp [pyNumCoerce])
            | obj o => rw [hgd] at hbc; exact absurd hbc (by simp [pyNumCoerce])
          have hpen : 0 ≤ ((countedPairs items).map (fun p => perAttrPenalty p.2)).sum := by
            apply List.sum_nonneg
            intro x hx
            obtain ⟨p, hp, rfl⟩ := List.mem_map.mp hx
            exact perAttrPenalty_nonneg p.2
          have hn : (0:ℚ) < (((countedPairs items).length : ℕ) : ℚ) := by
            exact_mod_cast Nat.pos_of_ne_zero hz
          rw [← Except.ok.inj h]
          refine ⟨round2_nonneg (le_max_left _ _), round2_le_hundred ?_,
            round2_twoDecimals _⟩
          apply max_le (by norm_num)
          have hsub := sub_le_self b (div_nonneg hpen hn.le)
          linarith
    | null =>
      rw [ajustar_obj_items_err kvs (by rw [hat]; rfl)] at h
      exact absurd h (by simp)
    | bool b =>
      rw [ajustar_obj_items_err kvs (by rw [hat]; rfl)] at h
      exact absurd h (by simp)
    | num q =>
      rw [ajustar_obj_items_err kvs (by rw [hat]; rfl)] at h
      exact absurd h (by simp)
    | str t =>
      rw [ajustar_obj_items_err kvs (by rw [hat]; rfl)] at h
      exact absurd h (by simp)
    | arr xs =>
      rw [ajustar_obj_items_err kvs (by rw [hat]; rfl)] at h
      exact absurd h (by simp)

/-- Counterexample for C7 as frozen: a review whose self-reported
percentage is 150 calibrates to 150, outside [0, 100]. -/
theorem c7_counterexample :
    ajustar_puntaje (.obj [(("atributos"), JValue.obj [(("a"), JValue.obj [])]),
      (("porcentaje"), JValue.num 150)]) = .ok 150
    ∧ ¬ ((150 : ℚ) ≤ 100) := by
  constructor
  · decide
  · norm_num

/-- A concrete review with an empty counted attribute and base 70. -/
def exampleReview70 : JValue :=
  .obj [(("atributos"), JValue.obj [(("a"), JValue.obj [])]),
        (("porcentaje"), JValue.num 70)]

/-- Witness for C7 at a concrete review with base percentage 70. -/
theorem c7_witness :
    ajustar_puntaje exampleReview70 = .ok 70
    ∧ basePercent exampleReview70 ≤ 100
    ∧ (0 ≤ (70:ℚ) ∧ (70:ℚ) ≤ 100 ∧ ∃ m : ℤ, (70:ℚ) = (m : ℚ) / 100) :=
  ⟨by decide, by decide,
   c7_score_range exampleReview70 70 (by decide) (by decide)⟩

/-- **C10**: degenerate calibration inputs all yield 0 without failing:
non-mapping inputs, reviews without an `atributos` key, and `atributos`
mappings with no mapping-valued entry. -/
theorem c10_degenerate_inputs :
    (∀ v : JValue, v.isObj = false → ajustar_puntaje v = .ok 0)
    ∧ (∀ kvs : List (String × JValue), kvs.lookup ("atributos") = none →
        ajustar_puntaje (.obj kvs) = .ok 0)
    ∧ (∀ (kvs items : List (String × JValue)),
        JValue.getD kvs ("atributos") (.obj []) = .obj items →
        (∀ kv ∈ items, kv.2.isObj = false) →
        ajustar_puntaje (.obj kvs) = .ok 0) := by
  refine ⟨ajustar_nonobj, ?_, ?_⟩
  · intro kvs hl
    have hat : JValue.getD kvs ("atributos") (.obj []) = .obj [] := by
      unfold JValue.getD
      rw [hl]
    exact ajustar_obj_zero kvs [] hat rfl
  · intro kvs items hat hno
    apply ajustar_obj_zero kvs items hat
    have : countedPairs items = [] := by
      unfold countedPairs
      rw [List.filterMap_eq_nil_iff]
      intro kv hkv
      cases hv : kv.2 with
      | obj d => exact absurd (hv ▸ hno kv hkv) (by simp [JValue.isObj])
      | null => rfl
      | bool b => rfl
      | num q => rfl
      | str t => rfl
      | arr xs => rfl
    rw [this]
    rfl

/-- Witness for C10 at a list input, a review lacking `atributos`, and a
review whose only attribute payload is an array. -/
theorem c10_witness :
    ajustar_puntaje (.arr [.num 1]) = .ok 0
    ∧ ajustar_puntaje (.obj [(("porcentaje"), JValue.num 88)]) = .ok 0
    ∧ ajustar_puntaje (.obj [(("atributos"),
        JValue.obj [(("casos"), JValue.arr [])]),
        (("porcentaje"), JValue.num 88)]) = .ok 0 :=
  ⟨c10_degenerate_inputs.1 (.arr [.num 1]) rfl,
   c10_degenerate_inputs.2.1 [(("porcentaje"), JValue.num 88)] (by decide),
   c10_degenerate_inputs.2.2 [(("atributos"),
        JValue.obj [(("casos"), JValue.arr [])]),
        (("porcentaje"), JValue.num 88)]
     [(("casos"), JValue.arr [])] (by decide) (by decide)⟩

/-- A concrete one-attribute map used to exercise the monotonicity
theorem. -/
def exampleItems1 : List (String × JValue) :=
  [(("claridad"),
    JValue.obj [(("valor"), JValue.str "clara"),
                (("sugerencia"), JValue.str "ok ")])]

/-- A concrete review (attribute map plus base percentage 80). -/
def exampleReview1 : List (String × JValue) :=
  [(("atributos"), JValue.obj exampleItems1),
   (("porcentaje"), JValue.num 80)]

/-- Witness for C6 at a concrete review: appending the keyword
`ajustar` to a suggestion drops the score from 80 to 65. -/
theorem c6_witness :
    exampleReview1.lookup ("atributos") = some (.obj exampleItems1)
    ∧ ajustar_puntaje (.obj exampleReview1) = .ok 80
    ∧ ajustar_puntaje (.obj (replaceKey exampleReview1 ("atributos")
        (.obj (appendInAttr exampleItems1 ("claridad") ("sugerencia")
          ("ajustar"))))) = .ok 65
    ∧ (65 : ℚ) ≤ 80 :=
  ⟨by decide, by decide, by decide,
   c6_calibration_monotone exampleReview1 exampleItems1
     ("claridad") ("sugerencia") ("ajustar") 80 65
     (by decide) (Or.inr rfl) (by decide) (by decide)⟩

/-- **C4**: `safe_json_loads` is a total function of its text input (it
never raises: the regex search is total and the only decode failure,
`json.JSONDecodeError`, is caught), and whenever it cannot extract and
decode a structured value it returns an error payload carrying the
original text verbatim under `raw_response` together with a diagnostic
`error` message. -/
theorem c4_safe_json_loads_total (text : String) :
    (∃ v : JValue, safe_json_loads text = v)
    ∧ ((∃ sub v, findCandidate text.data = some sub
          ∧ jsonDecodeChars sub = some v ∧ safe_json_loads text = v)
       ∨ (∃ msg : String,
            lookupField (safe_json_loads text) ("error") = some (.str msg)
            ∧ lookupField (safe_json_loads text) ("raw_response")
              = some (.str text))) := by
  refine ⟨⟨safe_json_loads text, rfl⟩, ?_⟩
  cases h1 : findCandidate text.data with
  | none =>
    have hres : safe_json_loads text = errNoJson text := by
      simp only [safe_json_loads, h1]
    right
    refine ⟨"No JSON encontrado", ?_, ?_⟩ <;> rw [hres] <;> rfl
  | some sub =>
    cases h2 : jsonDecodeChars sub with
    | some v =>
      have hres : safe_json_loads text = v := by
        simp only [safe_json_loads, h1, h2]
      exact Or.inl ⟨sub, v, h1 ▸ rfl, h2, hres⟩
    | none =>
      have hres : safe_json_loads text = errInvalid text := by
        simp only [safe_json_loads, h1, h2]
      right
      refine ⟨"JSON inválido", ?_, ?_⟩ <;> rw [hres] <;> rfl

/-! ### The reviewer roles and the orchestrator (agents.py lines 89-314) -/

/-- The closed set of reviewer roles. -/
inductive Role : Type where
  | productOwner : Role
  | analyst : Role
  | scrumMaster : Role
  | tester : Role
deriving DecidableEq, Repr

/-- The Python role strings. -/
def roleName : Role → String
  | .productOwner => "Product Owner"
  | .analyst => "Analyst"
  | .scrumMaster => "Scrum Master"
  | .tester => "Tester"

/-- The four configured agents in construction order (agents.py
line 225). -/
def roles : List Role := [.productOwner, .analyst, .scrumMaster, .tester]

/-- One model-service response per outbound call. `ask_gemini` never
raises (its catch-all returns an error JSON payload), so a total
response function models the service faithfully. -/
structure Oracle where
  review : Role → String
  refineResp : String
  createResp : String

/-- Tags recording which model calls an orchestration run issued. -/
inductive CallTag : Type where
  | review : Role → CallTag
  | refine : CallTag
  | create : CallTag
deriving DecidableEq, Repr

/-- The result dict built by `Agent.analyze` (fixed keys `role`,
`analysis`, `porcentaje`). -/
structure AnalyzeResult where
  role : Role
  analysis : JValue
  porcentaje : JValue
deriving DecidableEq

/-- `Agent.analyze` (agents.py lines 93-208): reads the requirement
fields (KeyError if absent), sends the role prompt, parses the response
and extracts `porcentaje` (default 0) — an `AttributeError` when the
parsed analysis is not a dict (e.g. a JSON array). -/
def analyze (role : Role) (req : List (String × JValue)) (o : Oracle) :
    Except PyErr AnalyzeResult :=
  match JValue.pyGetItem req ("text") with
  | .error e => .error e
  | .ok _text =>
    match JValue.pyGetItem req ("descripcion_proyecto") with
    | .error e => .error e
    | .ok _desc =>
      let analysis := safe_json_loads (o.review role)
      match JValue.pyGet analysis ("porcentaje") (.num 0) with
      | .error e => .error e
      | .ok p => .ok ⟨role, analysis, p⟩

/-- `asyncio.gather` over the four agents: all reviews are collected in
role order; the first raised exception propagates. -/
def analyzeAll (rs : List Role) (req : List (String × JValue)) (o : Oracle) :
    Except PyErr (List AnalyzeResult) :=
  match rs with
  | [] => .ok []
  | r :: rest =>
    match analyze r req o with
    | .error e => .error e
    | .ok a =>
      match analyzeAll rest req o with
      | .error e => .error e
      | .ok as => .ok (a :: as)

/-- Recalibrate every review (agents.py line 229). -/
def ajustarAll (results : List AnalyzeResult) : Except PyErr (List ℚ) :=
  match results with
  | [] => .ok []
  | a :: rest =>
    match ajustar_puntaje a.analysis with
    | .error e => .error e
    | .ok p =>
      match ajustarAll rest with
      | .error e => .error e
      | .ok ps => .ok (p :: ps)

/-- The suggestion lines contributed by one review (agents.py lines
236-241): attributes that are dicts with a truthy `sugerencia`. -/
def sugListForAttr (role : Role) (p : ℚ) (items : List (String × JValue)) :
    List String :=
  items.filterMap (fun kv =>
    match kv.2 with
    | .obj d =>
      let s := JValue.getD d ("sugerencia") .null
      if JValue.truthy s then
        some ("- (" ++ roleName role ++ " - " ++ kv.1 ++ " - "
          ++ numRepr p ++ "%): Sugerencia: " ++ pyStr s)
      else none
    | _ => none)

/-- Combine suggestions across reviews (agents.py lines 233-241);
`.get("atributos", {})` raises on a non-dict analysis, `.items()` on a
non-dict attribute map. -/
def buildSugerencias (l : List (AnalyzeResult × ℚ)) :
    Except PyErr (List String) :=
  match l with
  | [] => .ok []
  | (a, p) :: rest =>
    match JValue.pyGet a.analysis ("atributos") (.obj []) with
    | .error e => .error e
    | .ok attrs =>
      match attrs with
      | .obj items =>
        match buildSugerencias rest with
        | .error e => .error e
        | .ok tail => .ok (sugListForAttr a.role p items ++ tail)
      | _ => .error (.attributeError "items")

/-- The validation guard of `orchestrate` (agents.py line 218): only the
project description is checked — missing key or falsy value. -/
def validationFails (req : List (String × JValue)) : Bool :=
  ¬ (req.lookup ("descripcion_proyecto")).isSome
  ∨ ¬ JValue.truthy (JValue.getD req ("descripcion_proyecto") .null)

/-- The validation-error result (agents.py lines 219-223); note that it
reads `req["text"]`, raising `KeyError` when `text` is also absent. -/
def validationErrorResult (req : List (String × JValue)) :
    Except PyErr JValue :=
  match JValue.pyGetItem req ("text") with
  | .error e => .error e
  | .ok t =>
    .ok (.obj [(("error"), .str "El campo 'descripcion_proyecto' es obligatorio"),
               (("id"), JValue.getD req ("id") (.str "-")),
               (("text"), t)])

/-- The main pipeline of `orchestrate` after validation (agents.py lines
225-314): fan-out, calibration, averaging, suggestion digest, the
refinement call and the new-requirement call, then result assembly. -/
def orchestrateBody (req : List (String × JValue)) (o : Oracle) :
    Except PyErr JValue :=
  match analyzeAll roles req o with
  | .error e => .error e
  | .ok results =>
    match ajustarAll results with
    | .error e => .error e
    | .ok porcentajes =>
      let promedio : ℚ :=
        if porcentajes.isEmpty then 0
        else round2 (qDiv (qSum porcentajes) ((porcentajes.length : ℕ) : ℚ))
      match buildSugerencias (results.zip porcentajes) with
      | .error e => .error e
      | .ok sugerencias =>
        let refined := safe_json_loads o.refineResp
        let nuevo := safe_json_loads o.createResp
        match JValue.pyGet refined ("requisito_refinado_final") (.str "No generado") with
        | .error e => .error e
        | .ok rrf =>
          match JValue.pyGet refined ("justificacion_refinamiento") (.str "Sin justificación") with
          | .error e => .error e
          | .ok jrf =>
            match JValue.pyGet nuevo ("requisito_funcional_nuevo") (.str "No generado") with
            | .error e => .error e
            | .ok rn =>
              match JValue.pyGet nuevo ("justificacion") (.str "Sin justificación") with
              | .error e => .error e
              | .ok jn =>
                match JValue.pyGetItem req ("text") with
                | .error e => .error e
                | .ok t =>
                  match JValue.pyGetItem req ("descripcion_proyecto") with
                  | .error e => .error e
                  | .ok desc =>
                    .ok (.obj [
                      (("id"), JValue.getD req ("id") (.str "-")),
                      (("text"), t),
                      (("descripcion_proyecto"), desc),
                      (("promedio_cumplimiento"), .num promedio),
                      (("analisis_detallado"),
                        .obj (results.map (fun a => (roleName a.role, a.analysis)))),
                      (("sugerencias_combinadas"), .arr (sugerencias.map .str)),
                      (("opciones_requisito"), .obj [
                        (("requisito_refinado"), rrf),
                        (("justificacion_refinado"), jrf),
                        (("requisito_nuevo"), rn),
                        (("justificacion_nuevo"), jn)]),
                      (("recomendacion"),
                        .str "Compare ambas opciones y elija la que mejor se adapte a las necesidades específicas del proyecto.")])

/-- The model calls a successful full run issues, in order: the four
reviewer calls of the fan-out, then the refinement call, then the
new-requirement call. -/
def reviewTrace : List CallTag :=
  [.review .productOwner, .review .analyst, .review .scrumMaster, .review .tester]

/-- `orchestrate` (agents.py lines 214-314), returning the consolidated
result together with the trace of model calls issued on that path. The
validation branch consults the oracle not at all. -/
def orchestrate (req : List (String × JValue)) (o : Oracle) :
    Except PyErr (JValue × List CallTag) :=
  if validationFails req then
    match validationErrorResult req with
    | .error e => .error e
    | .ok r => .ok (r, [])
  else
    match orchestrateBody req o with
    | .error e => .error e
    | .ok r => .ok (r, reviewTrace ++ [.refine, .create])

/-- The `promedio_cumplimiento` field of a run's result. -/
def promedioOf (res : Except PyErr (JValue × List CallTag)) : Option JValue :=
  match res with
  | .ok (r, _) => lookupField r ("promedio_cumplimiento")
  | .error _ => none

/-- The number of follow-up (refinement / synthesis) calls of a run. -/
def followupsOf (res : Except PyErr (JValue × List CallTag)) : Option ℕ :=
  match res with
  | .ok (_, t) => some (t.count .refine + t.count .create)
  | .error _ => none

/-- The `error` field (if any) of a run's result. -/
def errorFieldOf (res : Except PyErr (JValue × List CallTag)) :
    Option (Option JValue) :=
  match res with
  | .ok (r, _) => some (lookupField r ("error"))
  | .error _ => none

/-- A well-formed requirement (all fields present and non-empty). -/
def c1Req : List (String × JValue) :=
  [(("id"), JValue.str "RF-01"), (("text"), JValue.str "el sistema debe buscar"),
   (("descripcion_proyecto"), JValue.str "sistema de biblioteca")]

/-- Reviewer responses scoring 80 with one penalty-free attribute; both
follow-up calls answer with an empty object. -/
def c1Oracle : Oracle :=
  ⟨fun _ => "\x7b\"atributos\": \x7b\"a\": \x7b\x7d\x7d, \"porcentaje\": 80\x7d",
   "\x7b\x7d", "\x7b\x7d"⟩

/-- Counterexample for C1 as frozen: at an averaged score of 80 — inside
the claimed acknowledgment-only band [71, 89] — `orchestrate` still
issues its two follow-up model calls. -/
theorem c1_counterexample :
    promedioOf (orchestrate c1Req c1Oracle) = some (.num 80)
    ∧ ((71:ℚ) ≤ 80 ∧ (80:ℚ) ≤ 89)
    ∧ followupsOf (orchestrate c1Req c1Oracle) = some 2
    ∧ ¬ followupsOf (orchestrate c1Req c1Oracle) = some 0 :=
  ⟨by decide, by decide, by decide, by decide⟩

/-- **C1** (amended): the orchestrator applies no decision bands at all —
every run that passes validation and returns issues exactly the four
reviewer calls followed by exactly two follow-up model calls (refinement
and new-requirement synthesis), regardless of the averaged score. -/
theorem c1_no_decision_bands (req : List (String × JValue)) (o : Oracle)
    (r : JValue) (trace : List CallTag)
    (h : orchestrate req o = .ok (r, trace))
    (hv : validationFails req = false) :
    trace = reviewTrace ++ [.refine, .create]
    ∧ trace.count .refine + trace.count .create = 2 := by
  unfold orchestrate at h
  rw [hv] at h
  simp only [Bool.false_eq_true, if_false] at h
  cases hb : orchestrateBody req o with
  | error e =>
    rw [hb] at h
    exact absurd h (by simp)
  | ok r0 =>
    rw [hb] at h
    have hp := Except.ok.inj h
    rw [Prod.mk.injEq] at hp
    obtain ⟨-, htr⟩ := hp
    rw [← htr]
    exact ⟨rfl, by decide⟩

/-- The consolidated result of the C1 run (averaged score 80). -/
def c1Result : JValue :=
  .obj [(("id"), JValue.str "RF-01"),
        (("text"), JValue.str "el sistema debe buscar"),
        (("descripcion_proyecto"), JValue.str "sistema de biblioteca"),
        (("promedio_cumplimiento"), JValue.num 80),
        (("analisis_detallado"), JValue.obj
          [(("Product Owner"), JValue.obj
             [(("atributos"), JValue.obj [(("a"), JValue.obj [])]),
              (("porcentaje"), JValue.num 80)]),
           (("Analyst"), JValue.obj
             [(("atributos"), JValue.obj [(("a"), JValue.obj [])]),
              (("porcentaje"), JValue.num 80)]),
           (("Scrum Master"), JValue.obj
             [(("atributos"), JValue.obj [(("a"), JValue.obj [])]),
              (("porcentaje"), JValue.num 80)]),
           (("Tester"), JValue.obj
             [(("atributos"), JValue.obj [(("a"), JValue.obj [])]),
              (("porcentaje"), JValue.num 80)])]),
        (("sugerencias_combinadas"), JValue.arr []),
        (("opciones_requisito"), JValue.obj
          [(("requisito_refinado"), JValue.str "No generado"),
           (("justificacion_refinado"), JValue.str "Sin justificación"),
           (("requisito_nuevo"), JValue.str "No generado"),
           (("justificacion_nuevo"), JValue.str "Sin justificación")]),
        (("recomendacion"), JValue.str "Compare ambas opciones y elija la que mejor se adapte a las necesidades específicas del proyecto.")]

/-- Witness for the amended C1 at the concrete run. -/
theorem c1_witness :
    orchestrate c1Req c1Oracle = .ok (c1Result, reviewTrace ++ [.refine, .create])
    ∧ validationFails c1Req = false
    ∧ ((reviewTrace ++ [CallTag.refine, CallTag.create])
         = reviewTrace ++ [CallTag.refine, CallTag.create]
       ∧ (reviewTrace ++ [CallTag.refine, CallTag.create]).count CallTag.refine
         + (reviewTrace ++ [CallTag.refine, CallTag.create]).count CallTag.create
         = 2) :=
  ⟨by decide, by decide,
   c1_no_decision_bands c1Req c1Oracle c1Result (reviewTrace ++ [.refine, .create])
     (by decide) (by decide)⟩

/-- A reviewer response whose extracted JSON is an array. -/
def c3Oracle : Oracle := ⟨fun _ => "[1, 2]", "\x7b\x7d", "\x7b\x7d"⟩

/-- **C3**: the failure is real — a model response whose extracted JSON
is an array makes `analysis.get("porcentaje", 0)` inside `Agent.analyze`
raise `AttributeError` (lists have no `.get`), and that exception
escapes `orchestrate` instead of being returned as data. -/
theorem c3_array_response_escapes :
    safe_json_loads ("[1, 2]") = .arr [.num 1, .num 2]
    ∧ orchestrate c1Req c3Oracle = .error (.attributeError "get") :=
  ⟨by decide, by decide⟩

/-- A requirement whose `text` is empty but whose project description is
fine. -/
def c5Req : List (String × JValue) :=
  [(("id"), JValue.str "X"), (("text"), JValue.str ""),
   (("descripcion_proyecto"), JValue.str "proyecto")]

/-- Counterexample for C5 as frozen: an empty `text` is NOT validated —
the run proceeds to fan-out, issues all model calls, and returns a
normal (non-error) result. -/
theorem c5_counterexample :
    validationFails c5Req = false
    ∧ followupsOf (orchestrate c5Req c1Oracle) = some 2
    ∧ errorFieldOf (orchestrate c5Req c1Oracle) = some none :=
  ⟨by decide, by decide, by decide⟩

/-- **C5** (amended): only the project description is validated. When it
is missing or falsy (and `text` is readable), `orchestrate` returns the
explicit validation-error result without consulting the model oracle at
all: the call trace is empty and the result is oracle-independent. -/
theorem c5_validation_short_circuit (req : List (String × JValue))
    (o o2 : Oracle) (r : JValue) (trace : List CallTag)
    (hv : validationFails req = true)
    (h : orchestrate req o = .ok (r, trace)) :
    trace = []
    ∧ lookupField r ("error")
        = some (.str "El campo 'descripcion_proyecto' es obligatorio")
    ∧ orchestrate req o2 = orchestrate req o := by
  unfold orchestrate at h ⊢
  rw [hv] at h ⊢
  simp only [if_true] at h ⊢
  cases ht : JValue.pyGetItem req ("text") with
  | error e =>
    simp only [validationErrorResult, ht] at h
    exact absurd h (by simp)
  | ok t =>
    simp only [validationErrorResult, ht] at h
    have hp := Except.ok.inj h
    rw [Prod.mk.injEq] at hp
    obtain ⟨hr, htr⟩ := hp
    subst hr
    subst htr
    refine ⟨rfl, ?_, ?_⟩
    · rfl
    · trivial

/-- A requirement lacking the project description. -/
def c5wReq : List (String × JValue) := [(("text"), JValue.str "algo")]

/-- The validation-error result for that requirement. -/
def c5wResult : JValue :=
  .obj [(("error"), JValue.str "El campo 'descripcion_proyecto' es obligatorio"),
        (("id"), JValue.str "-"),
        (("text"), JValue.str "algo")]

/-- Witness for the amended C5 at a concrete requirement without a
project description. -/
theorem c5_witness :
    validationFails c5wReq = true
    ∧ orchestrate c5wReq c1Oracle = .ok (c5wResult, [])
    ∧ (([] : List CallTag) = []
       ∧ lookupField c5wResult ("error")
           = some (.str "El campo 'descripcion_proyecto' es obligatorio")
       ∧ orchestrate c5wReq c3Oracle = orchestrate c5wReq c1Oracle) :=
  ⟨by decide, by decide,
   c5_validation_short_circuit c5wReq c1Oracle c3Oracle c5wResult []
     (by decide) (by decide)⟩

/-- Calibrating an error-payload analysis gives 0: no `atributos` key,
hence no counted attribute. -/
theorem ajustar_error_payload (m : String) :
    ajustar_puntaje (.obj [(("error"), JValue.str m)]) = .ok 0 := rfl

/-- `Agent.analyze` on a parsed error payload: the review degrades to an
error-tagged analysis with default percentage 0. -/
theorem analyze_of_parsed (role : Role) (req : List (String × JValue))
    (o : Oracle) (tv dv : JValue) (m : String)
    (htext : req.lookup ("text") = some tv)
    (hdesc : req.lookup ("descripcion_proyecto") = some dv)
    (hresp : safe_json_loads (o.review role) = .obj [(("error"), .str m)]) :
    analyze role req o = .ok ⟨role, .obj [(("error"), .str m)], .num 0⟩ := by
  unfold analyze
  simp only [JValue.pyGetItem, htext, hdesc, hresp]
  rfl

/-- **C8**: on a well-formed requirement, even when every model call
fails (each response is `ask_gemini`'s error payload, parsing to an
error-tagged object), `orchestrate` returns exactly one review per
configured role — the four analyses keyed by the four role names, each
carrying the error marker — every review calibrates to 0, and the
averaged score is 0. -/
theorem c8_one_review_per_role (req : List (String × JValue)) (o : Oracle)
    (msgs : Role → String) (mr mc : String) (tv : JValue)
    (htext : req.lookup ("text") = some tv)
    (hv : validationFails req = false)
    (hresp : ∀ role, safe_json_loads (o.review role)
      = .obj [(("error"), .str (msgs role))])
    (hrefine : safe_json_loads o.refineResp = .obj [(("error"), .str mr)])
    (hcreate : safe_json_loads o.createResp = .obj [(("error"), .str mc)]) :
    ∃ r : JValue,
      orchestrate req o = .ok (r, reviewTrace ++ [CallTag.refine, CallTag.create])
      ∧ lookupField r ("analisis_detallado")
          = some (.obj [
              (("Product Owner"), .obj [(("error"), .str (msgs .productOwner))]),
              (("Analyst"), .obj [(("error"), .str (msgs .analyst))]),
              (("Scrum Master"), .obj [(("error"), .str (msgs .scrumMaster))]),
              (("Tester"), .obj [(("error"), .str (msgs .tester))])])
      ∧ lookupField r ("promedio_cumplimiento") = some (.num 0)
      ∧ ∀ role : Role,
          ajustar_puntaje (.obj [(("error"), .str (msgs role))]) = .ok 0 := by
  obtain ⟨dv, hdesc⟩ : ∃ dv, req.lookup ("descripcion_proyecto") = some dv := by
    unfold validationFails at hv
    cases hl : req.lookup ("descripcion_proyecto") with
    | some dv => exact ⟨dv, rfl⟩
    | none => rw [hl] at hv; simp at hv
  have hana := fun role =>
    analyze_of_parsed role req o tv dv (msgs role) htext hdesc (hresp role)
  have hall : analyzeAll roles req o = .ok
      [⟨.productOwner, .obj [(("error"), .str (msgs .productOwner))], .num 0⟩,
       ⟨.analyst, .obj [(("error"), .str (msgs .analyst))], .num 0⟩,
       ⟨.scrumMaster, .obj [(("error"), .str (msgs .scrumMaster))], .num 0⟩,
       ⟨.tester, .obj [(("error"), .str (msgs .tester))], .num 0⟩] := by
    simp only [roles, analyzeAll, hana]
  have hadj : ajustarAll
      [⟨.productOwner, .obj [(("error"), .str (msgs .productOwner))], .num 0⟩,
       ⟨.analyst, .obj [(("error"), .str (msgs .analyst))], .num 0⟩,
       ⟨.scrumMaster, .obj [(("error"), .str (msgs .scrumMaster))], .num 0⟩,
       ⟨.tester, .obj [(("error"), .str (msgs .tester))], .num 0⟩]
      = .ok [0, 0, 0, 0] := rfl
  have hbuild : buildSugerencias (List.zip
      [⟨.productOwner, .obj [(("error"), .str (msgs .productOwner))], .num 0⟩,
       ⟨.analyst, .obj [(("error"), .str (msgs .analyst))], .num 0⟩,
       ⟨.scrumMaster, .obj [(("error"), .str (msgs .scrumMaster))], .num 0⟩,
       ⟨.tester, .obj [(("error"), .str (msgs .tester))], .num 0⟩]
      [(0:ℚ), 0, 0, 0]) = .ok [] := rfl
  have hg1 : JValue.pyGet (.obj [(("error"), JValue.str mr)])
      ("requisito_refinado_final") (.str "No generado")
      = .ok (.str "No generado") := rfl
  have hg2 : JValue.pyGet (.obj [(("error"), JValue.str mr)])
      ("justificacion_refinamiento") (.str "Sin justificación")
      = .ok (.str "Sin justificación") := rfl
  have hg3 : JValue.pyGet (.obj [(("error"), JValue.str mc)])
      ("requisito_funcional_nuevo") (.str "No generado")
      = .ok (.str "No generado") := rfl
  have hg4 : JValue.pyGet (.obj [(("error"), JValue.str mc)])
      ("justificacion") (.str "Sin justificación")
      = .ok (.str "Sin justificación") := rfl
  have hprom : round2 (qDiv (qSum [(0:ℚ), 0, 0, 0]) (((4:ℕ)) : ℚ)) = 0 := by
    decide
  have hbody : orchestrateBody req o = .ok (.obj [
      (("id"), JValue.getD req ("id") (.str "-")),
      (("text"), tv),
      (("descripcion_proyecto"), dv),
      (("promedio_cumplimiento"), .num 0),
      (("analisis_detallado"), .obj [
        (("Product Owner"), .obj [(("error"), .str (msgs .productOwner))]),
        (("Analyst"), .obj [(("error"), .str (msgs .analyst))]),
        (("Scrum Master"), .obj [(("error"), .str (msgs .scrumMaster))]),
        (("Tester"), .obj [(("error"), .str (msgs .tester))])]),
      (("sugerencias_combinadas"), JValue.arr []),
      (("opciones_requisito"), .obj [
        (("requisito_refinado"), .str "No generado"),
        (("justificacion_refinado"), .str "Sin justificación"),
        (("requisito_nuevo"), .str "No generado"),
        (("justificacion_nuevo"), .str "Sin justificación")]),
      (("recomendacion"), .str "Compare ambas opciones y elija la que mejor se adapte a las necesidades específicas del proyecto.")]) := by
    unfold orchestrateBody
    simp only [hall, hadj, hbuild, hrefine, hcreate, hg1, hg2, hg3, hg4,
      JValue.pyGetItem, htext, hdesc, List.isEmpty_cons, Bool.false_eq_true,
      if_false, List.length_cons, List.length_nil]
    rw [hprom]
    simp only [List.map_cons, List.map_nil, roleName]
  refine ⟨.obj [
      (("id"), JValue.getD req ("id") (.str "-")),
      (("text"), tv),
      (("descripcion_proyecto"), dv),
      (("promedio_cumplimiento"), .num 0),
      (("analisis_detallado"), .obj [
        (("Product Owner"), .obj [(("error"), .str (msgs .productOwner))]),
        (("Analyst"), .obj [(("error"), .str (msgs .analyst))]),
        (("Scrum Master"), .obj [(("error"), .str (msgs .scrumMaster))]),
        (("Tester"), .obj [(("error"), .str (msgs .tester))])]),
      (("sugerencias_combinadas"), JValue.arr []),
      (("opciones_requisito"), .obj [
        (("requisito_refinado"), .str "No generado"),
        (("justificacion_refinado"), .str "Sin justificación"),
        (("requisito_nuevo"), .str "No generado"),
        (("justificacion_nuevo"), .str "Sin justificación")]),
      (("recomendacion"), .str "Compare ambas opciones y elija la que mejor se adapte a las necesidades específicas del proyecto.")],
    ?_, ?_, ?_, fun role => ajustar_error_payload (msgs role)⟩
  · unfold orchestrate
    rw [hv]
    simp only [Bool.false_eq_true, if_false, hbody]
  · rfl
  · rfl

/-- An oracle on which every model call fails: each response is the
`ask_gemini` error payload. -/
def c8Oracle : Oracle :=
  ⟨fun _ => "\x7b\"error\": \"boom\"\x7d",
   "\x7b\"error\": \"rfail\"\x7d", "\x7b\"error\": \"cfail\"\x7d"⟩

/-- Witness for C8: the all-calls-fail run on the concrete requirement. -/
theorem c8_witness :
    List.lookup ("text") c1Req = some (JValue.str "el sistema debe buscar")
    ∧ validationFails c1Req = false
    ∧ safe_json_loads (c8Oracle.review Role.productOwner)
        = .obj [(("error"), JValue.str "boom")]
    ∧ safe_json_loads c8Oracle.refineResp = .obj [(("error"), JValue.str "rfail")]
    ∧ safe_json_loads c8Oracle.createResp = .obj [(("error"), JValue.str "cfail")]
    ∧ (∃ r : JValue,
        orchestrate c1Req c8Oracle
          = .ok (r, reviewTrace ++ [CallTag.refine, CallTag.create])
        ∧ lookupField r ("analisis_detallado")
            = some (.obj [
                (("Product Owner"), .obj [(("error"), JValue.str "boom")]),
                (("Analyst"), .obj [(("error"), JValue.str "boom")]),
                (("Scrum Master"), .obj [(("error"), JValue.str "boom")]),
                (("Tester"), .obj [(("error"), JValue.str "boom")])])
        ∧ lookupField r ("promedio_cumplimiento") = some (.num 0)
        ∧ ∀ role : Role,
            ajustar_puntaje (.obj [(("error"), JValue.str "boom")]) = .ok 0) :=
  ⟨by decide, by decide, by decide, by decide, by decide,
   c8_one_review_per_role c1Req c8Oracle (fun _ => "boom") "rfail" "cfail"
     (.str "el sistema debe buscar") (by decide) (by decide)
     (fun role => by cases role <;> decide) (by decide) (by decide)⟩

/-! ### A JSON printer, and the persistence collaborator (db.py)

`app.py` serialises the consolidated result with `json.dumps` before
`save_result` stores it; `load_all` returns the stored rows. The printer
below models `json.dumps` (compact separators; the textual spacing is
irrelevant to value-level round-tripping). -/

/-- Escape one character as inside a JSON string literal. -/
def escapeChar (c : Char) : List Char :=
  if c = '"' then ['\\', '"']
  else if c = '\\' then ['\\', '\\']
  else if c = '\n' then ['\\', 'n']
  else if c = '\t' then ['\\', 't']
  else if c = '\r' then ['\\', 'r']
  else [c]

/-- Escape a character list. -/
def escapeList : List Char → List Char
  | [] => []
  | c :: r => escapeChar c ++ escapeList r

/-- Print a JSON string literal. -/
def printStringChars (s : String) : List Char :=
  '"' :: escapeList s.data ++ ['"']

/-- Decimal digits of a natural number, most significant first. -/
def natToChars (n : Nat) : List Char :=
  if n = 0 then ['0'] else ((Nat.digits 10 n).map Nat.digitChar).reverse

/-- Left-pad with zeros to width `k`. -/
def padZeros (k : Nat) (l : List Char) : List Char :=
  List.replicate (k - l.length) '0' ++ l

/-- Print a JSON number: integers plainly, other two-to-six-decimal
rationals with a six-digit fraction (only well-formed numbers — whose
denominator divides 10^6 — are printed faithfully). -/
def printNumChars (q : ℚ) : List Char :=
  if q.den = 1 then
    (if q.num < 0 then '-' :: natToChars q.num.natAbs else natToChars q.num.natAbs)
  else
    (if q.num < 0 then ['-'] else [])
      ++ natToChars ((qMul q 1000000).num.natAbs / 1000000)
      ++ '.' :: padZeros 6 (natToChars ((qMul q 1000000).num.natAbs % 1000000))

mutual

/-- The characters of a literal keyword. -/
def litChars (s : String) : List Char := s.data

/-- Print one JSON value, compactly. -/
def printJChars : JValue → List Char
  | .null => litChars "null"
  | .bool true => litChars "true"
  | .bool false => litChars "false"
  | .num q => printNumChars q
  | .str s => printStringChars s
  | .arr xs => '[' :: printItemsChars xs ++ [']']
  | .obj kvs => '{' :: printMembersChars kvs ++ ['}']

def printItemsChars : List JValue → List Char
  | [] => []
  | [x] => printJChars x
  | x :: y :: ys => printJChars x ++ ',' :: printItemsChars (y :: ys)

def printMembersChars : List (String × JValue) → List Char
  | [] => []
  | [(k, v)] => printStringChars k ++ ':' :: printJChars v
  | (k, v) :: m :: ms =>
      printStringChars k ++ ':' :: printJChars v ++ ',' :: printMembersChars (m :: ms)

end

/-- `json.dumps` on the modelled data. -/
def jsonDumps (v : JValue) : String := ⟨printJChars v⟩

mutual

/-- Fuel bound for parsing a printed value. -/
def sizeJ : JValue → Nat
  | .null => 1
  | .bool _ => 1
  | .num _ => 1
  | .str _ => 1
  | .arr xs => 1 + sizeItems xs
  | .obj kvs => 1 + sizeMembers kvs

def sizeItems : List JValue → Nat
  | [] => 0
  | x :: xs => 1 + sizeJ x + sizeItems xs

def sizeMembers : List (String × JValue) → Nat
  | [] => 0
  | (_, v) :: ms => 1 + sizeJ v + sizeMembers ms

end

/-- A character printable inside a JSON string by this printer: anything
except control characters other than newline, tab and carriage return. -/
def charOkB (c : Char) : Bool :=
  32 ≤ c.toNat ∨ c = '\n' ∨ c = '\t' ∨ c = '\r'

/-- A printable string. -/
def strOkB (s : String) : Bool := s.data.all charOkB

mutual

/-- Values the printer represents faithfully: numbers of at most six
decimals, printable strings, and objects with duplicate-free keys. -/
def wellformedB : JValue → Bool
  | .null => true
  | .bool _ => true
  | .num q => (qMul q 1000000).den = 1
  | .str s => strOkB s
  | .arr xs => wfItems xs
  | .obj kvs => decide ((kvs.map Prod.fst).Nodup) && wfMembers kvs

def wfItems : List JValue → Bool
  | [] => true
  | x :: xs => wellformedB x && wfItems xs

def wfMembers : List (String × JValue) → Bool
  | [] => true
  | (k, v) :: ms => strOkB k && wellformedB v && wfMembers ms

end

/-- A stored row of the `requirements` table (db.py). -/
structure StoredRow where
  id : String
  text : String
  context : String
  result_json : String
deriving DecidableEq, Repr

/-- `save_result` (db.py lines 23-32): `INSERT OR REPLACE` keyed by the
primary key `id`. -/
def save_result (db : List StoredRow) (req_id text context result_json : String) :
    List StoredRow :=
  if db.any (fun row => row.id = req_id) then
    db.map (fun row => if row.id = req_id then ⟨req_id, text, context, result_json⟩ else row)
  else db ++ [⟨req_id, text, context, result_json⟩]

/-- `load_all` (db.py lines 35-44): every stored row. -/
def load_all (db : List StoredRow) : List StoredRow := db

/-- The row a caller reads back for a given id. -/
def findRow (rows : List StoredRow) (req_id : String) : Option StoredRow :=
  rows.find? (fun row => row.id = req_id)

/-! ### Round-trip: decimal digits -/

theorem digitVal_digitChar {d : Nat} (h : d < 10) :
    digitVal (Nat.digitChar d) = d := by
  interval_cases d <;> decide

theorem isDigit_digitChar {d : Nat} (h : d < 10) :
    (Nat.digitChar d).isDigit = true := by
  interval_cases d <;> decide

theorem natToChars_all_digits (n : Nat) :
    ∀ c ∈ natToChars n, c.isDigit = true := by
  unfold natToChars
  split
  · intro c hc
    simp only [List.mem_singleton] at hc
    subst hc
    decide
  · intro c hc
    rw [List.mem_reverse, List.mem_map] at hc
    obtain ⟨d, hd, rfl⟩ := hc
    exact isDigit_digitChar (Nat.digits_lt_base (by norm_num) hd)

theorem natToChars_ne_nil (n : Nat) : natToChars n ≠ [] := by
  unfold natToChars
  split
  · simp
  · rename_i h
    simp only [ne_eq, List.reverse_eq_nil_iff, List.map_eq_nil_iff]
    exact Nat.digits_ne_nil_iff_ne_zero.mpr h

theorem digitsToNat_natToChars (n : Nat) : digitsToNat (natToChars n) = n := by
  unfold natToChars digitsToNat
  split
  · rename_i h
    subst h
    rfl
  · rw [List.foldl_reverse]
    have key : ∀ ds : List Nat, (∀ d ∈ ds, d < 10) →
        (ds.map Nat.digitChar).foldr (fun c acc => 10 * acc + digitVal c) 0
          = Nat.ofDigits 10 ds := by
      intro ds hds
      induction ds with
      | nil => rfl
      | cons d ds ih =>
        have h1 : d < 10 := hds d (List.mem_cons_self d ds)
        have h2 : ∀ x ∈ ds, x < 10 := fun x hx => hds x (List.mem_cons_of_mem d hx)
        simp only [List.map_cons, List.foldr_cons, ih h2, Nat.ofDigits_cons,
          digitVal_digitChar h1]
        omega
    have heq : (fun c acc => 10 * acc + digitVal c)
        = (fun c acc => (fun a c => 10 * a + digitVal c) acc c) := rfl
    rw [← heq] at *
    rw [show ∀ l : List Char, l.foldr (fun x y => 10 * y + digitVal x) 0
        = l.foldr (fun c acc => 10 * acc + digitVal c) 0 from fun l => rfl]
    rw [key _ (fun d hd => Nat.digits_lt_base (by norm_num) hd),
      Nat.ofDigits_digits]

theorem getLast?_map {α β : Type} (f : α → β) (l : List α) :
    (l.map f).getLast? = l.getLast?.map f := by
  induction l with
  | nil => rfl
  | cons a l ih =>
    cases l with
    | nil => rfl
    | cons b t =>
      simp only [List.map_cons, List.getLast?_cons_cons] at *
      exact ih

theorem natToChars_no_leading_zero (n : Nat) :
    ¬ (1 < (natToChars n).length ∧ (natToChars n).headD 'x' = '0') := by
  unfold natToChars
  split
  · simp
  · rename_i h
    rintro ⟨-, hhead⟩
    rw [List.headD_eq_head?_getD, List.head?_reverse, getLast?_map] at hhead
    have hne : Nat.digits 10 n ≠ [] := (@Nat.digits_ne_nil_iff_ne_zero 10 n).mpr h
    rw [List.getLast?_eq_getLast _ hne] at hhead
    have hlast : (Nat.digits 10 n).getLast hne ≠ 0 :=
      Nat.getLast_digit_ne_zero 10 h
    have hlt : (Nat.digits 10 n).getLast hne < 10 :=
      Nat.digits_lt_base (by norm_num) (List.getLast_mem hne)
    obtain ⟨d, hdef⟩ : ∃ d, (Nat.digits 10 n).getLast hne = d := ⟨_, rfl⟩
    rw [hdef] at hhead hlast hlt
    simp only [Option.map_some', Option.getD_some] at hhead
    interval_cases d
    · exact hlast rfl
    all_goals exact absurd hhead (by decide)

theorem natToChars_length_le {n k : Nat} (hk : 1 ≤ k) (h : n < 10 ^ k) :
    (natToChars n).length ≤ k := by
  unfold natToChars
  split
  · simpa using hk
  · rename_i hn
    rw [List.length_reverse, List.length_map,
      Nat.digits_len 10 n (by norm_num) hn]
    have hlog := Nat.log_lt_of_lt_pow hn h
    omega

/-- The remainder does not begin with a digit. -/
def noDigitHead : List Char → Prop
  | [] => True
  | c :: _ => c.isDigit = false

theorem spanDigits_none (l : List Char) (h : noDigitHead l) :
    spanDigits l = ([], l) := by
  cases l with
  | nil => rfl
  | cons c r =>
    unfold spanDigits
    unfold noDigitHead at h
    rw [h]
    simp

theorem spanDigits_append (ds rest : List Char)
    (hds : ∀ c ∈ ds, c.isDigit = true) (hrest : noDigitHead rest) :
    spanDigits (ds ++ rest) = (ds, rest) := by
  induction ds with
  | nil => exact spanDigits_none rest hrest
  | cons c ds ih =>
    have hc := hds c (List.mem_cons_self c ds)
    have hds' : ∀ x ∈ ds, x.isDigit = true :=
      fun x hx => hds x (List.mem_cons_of_mem c hx)
    simp only [List.cons_append]
    unfold spanDigits
    rw [hc, ih hds']
    simp

theorem digitsToNat_replicate_append (k : Nat) (l : List Char) :
    digitsToNat (List.replicate k ('0') ++ l) = digitsToNat l := by
  induction k with
  | zero => rfl
  | succ k ih =>
    unfold digitsToNat at *
    rw [List.replicate_succ, List.cons_append, List.foldl_cons]
    have : (10 * 0 + digitVal ('0')) = 0 := by decide
    rw [this]
    exact ih

theorem padZeros_all_digits (k : Nat) (l : List Char)
    (hl : ∀ c ∈ l, c.isDigit = true) :
    ∀ c ∈ padZeros k l, c.isDigit = true := by
  intro c hc
  unfold padZeros at hc
  rw [List.mem_append] at hc
  rcases hc with hc | hc
  · rw [List.eq_of_mem_replicate hc]
    decide
  · exact hl c hc

theorem padZeros_length {k : Nat} {l : List Char} (h : l.length ≤ k) :
    (padZeros k l).length = k := by
  unfold padZeros
  rw [List.length_append, List.length_replicate]
  omega

/-- After a printed value inside a JSON document the input continues
with a comma, a closing bracket or brace, or nothing. -/
def restStop (l : List Char) : Prop :=
  l = [] ∨ (∃ t, l = ',' :: t) ∨ (∃ t, l = ']' :: t) ∨ (∃ t, l = '}' :: t)

theorem restStop_noDigit (l : List Char) (h : restStop l) : noDigitHead l := by
  rcases h with rfl | ⟨t, rfl⟩ | ⟨t, rfl⟩ | ⟨t, rfl⟩
  · trivial
  · show (',').isDigit = false
    decide
  · show (']').isDigit = false
    decide
  · show ('\x7d').isDigit = false
    decide

theorem parseExp_restStop (v : ℚ) (l : List Char) (h : restStop l) :
    parseExp v l = some (v, l) := by
  rcases h with rfl | ⟨t, rfl⟩ | ⟨t, rfl⟩ | ⟨t, rfl⟩ <;> rfl

theorem noDigitHead_dot (t : List Char) : noDigitHead ('.' :: t) := by
  show ('.').isDigit = false
  decide

theorem qPowTen_eq (k : Nat) : qPowTen k = (10 : ℚ) ^ k := by
  induction k with
  | zero => rfl
  | succ k ih =>
    rw [qPowTen, qMul_eq, ih, pow_succ]
    ring

theorem parseNumAux_digits (neg : Bool) (c : Char) (cs rest : List Char)
    (hds : ∀ x ∈ c :: cs, x.isDigit = true)
    (hno : ¬ (1 < (c :: cs).length ∧ (c :: cs).headD 'x' = '0'))
    (hrest : restStop rest) :
    parseNumAux neg ((c :: cs) ++ rest)
      = some ((if neg then -((digitsToNat (c :: cs) : ℕ) : ℚ)
               else ((digitsToNat (c :: cs) : ℕ) : ℚ)), rest) := by
  have hspan := spanDigits_append (c :: cs) rest hds (restStop_noDigit rest hrest)
  simp only [parseNumAux, hspan]
  rw [if_neg hno]
  rcases hrest with rfl | ⟨t, rfl⟩ | ⟨t, rfl⟩ | ⟨t, rfl⟩
  · exact parseExp_restStop _ _ (Or.inl rfl)
  · exact parseExp_restStop _ _ (Or.inr (Or.inl ⟨t, rfl⟩))
  · exact parseExp_restStop _ _ (Or.inr (Or.inr (Or.inl ⟨t, rfl⟩)))
  · exact parseExp_restStop _ _ (Or.inr (Or.inr (Or.inr ⟨t, rfl⟩)))

theorem parseNumAux_nat (neg : Bool) (n : Nat) (rest : List Char)
    (hrest : restStop rest) :
    parseNumAux neg (natToChars n ++ rest)
      = some ((if neg then -((n : ℕ) : ℚ) else ((n : ℕ) : ℚ)), rest) := by
  obtain ⟨c, cs, hcons⟩ := List.exists_cons_of_ne_nil (natToChars_ne_nil n)
  have hds := natToChars_all_digits n
  have hno := natToChars_no_leading_zero n
  rw [hcons] at hds hno
  have h := parseNumAux_digits neg c cs rest hds hno hrest
  rw [← hcons, digitsToNat_natToChars] at h
  exact h

theorem parseNumAux_frac (neg : Bool) (I F : Nat) (hF : F < 1000000)
    (rest : List Char) (hrest : restStop rest) :
    parseNumAux neg (natToChars I ++ '.' :: (padZeros 6 (natToChars F) ++ rest))
      = some ((if neg then -((I : ℚ) + (F : ℚ) / 1000000)
               else ((I : ℚ) + (F : ℚ) / 1000000)), rest) := by
  obtain ⟨c, cs, hconsI⟩ := List.exists_cons_of_ne_nil (natToChars_ne_nil I)
  have hdsI := natToChars_all_digits I
  have hnoI := natToChars_no_leading_zero I
  have hlenF : (natToChars F).length ≤ 6 :=
    natToChars_length_le (by norm_num) (by norm_num [hF])
  have hpadlen : (padZeros 6 (natToChars F)).length = 6 := padZeros_length hlenF
  have hpadne : padZeros 6 (natToChars F) ≠ [] := by
    intro h
    rw [h] at hpadlen
    simp at hpadlen
  obtain ⟨d, ds, hconsP⟩ := List.exists_cons_of_ne_nil hpadne
  have hdsP := padZeros_all_digits 6 (natToChars F) (natToChars_all_digits F)
  have hvalP : digitsToNat (padZeros 6 (natToChars F)) = F := by
    unfold padZeros
    rw [digitsToNat_replicate_append, digitsToNat_natToChars]
  rw [hconsI] at hdsI hnoI
  rw [hconsP] at hdsP hvalP hpadlen
  have hspan1 := spanDigits_append (c :: cs)
    ('.' :: ((d :: ds) ++ rest)) hdsI (noDigitHead_dot _)
  have hspan2 := spanDigits_append (d :: ds) rest hdsP (restStop_noDigit rest hrest)
  have hgoal : natToChars I ++ '.' :: (padZeros 6 (natToChars F) ++ rest)
      = (c :: cs) ++ '.' :: ((d :: ds) ++ rest) := by rw [hconsI, hconsP]
  rw [hgoal]
  simp only [parseNumAux, hspan1]
  rw [if_neg hnoI]
  simp only [hspan2]
  have hv : qAdd ((digitsToNat (c :: cs) : ℕ) : ℚ)
      (qDiv ((digitsToNat (d :: ds) : ℕ) : ℚ) (qPowTen (d :: ds).length))
      = (I : ℚ) + (F : ℚ) / 1000000 := by
    rw [qAdd_eq, qDiv_eq, qPowTen_eq, hvalP, hpadlen]
    rw [show digitsToNat (c :: cs) = I by rw [← hconsI, digitsToNat_natToChars]]
    norm_num
  rw [hv]
  rcases hrest with rfl | ⟨t, rfl⟩ | ⟨t, rfl⟩ | ⟨t, rfl⟩
  · exact parseExp_restStop _ _ (Or.inl rfl)
  · exact parseExp_restStop _ _ (Or.inr (Or.inl ⟨t, rfl⟩))
  · exact parseExp_restStop _ _ (Or.inr (Or.inr (Or.inl ⟨t, rfl⟩)))
  · exact parseExp_restStop _ _ (Or.inr (Or.inr (Or.inr ⟨t, rfl⟩)))

theorem parseNumber_eq_aux (l : List Char) (h : l.head? ≠ some '-') :
    parseNumber l = parseNumAux false l := by
  unfold parseNumber
  rw [if_neg h]

theorem parseNumber_print (q : ℚ) (hwf : (qMul q 1000000).den = 1)
    (rest : List Char) (hrest : restStop rest) :
    parseNumber (printNumChars q ++ rest) = some (q, rest) := by
  by_cases hden : q.den = 1
  · have hq : ((q.num : ℤ) : ℚ) = q := Rat.coe_int_num_of_den_eq_one hden
    by_cases hneg : q.num < 0
    · have hshape : printNumChars q ++ rest
          = '-' :: (natToChars q.num.natAbs ++ rest) := by
        unfold printNumChars
        rw [if_pos hden, if_pos hneg, List.cons_append]
      rw [hshape]
      unfold parseNumber
      simp only [List.head?_cons, List.tail_cons]
      rw [if_pos trivial, parseNumAux_nat true q.num.natAbs rest hrest]
      have hval : -((q.num.natAbs : ℕ) : ℚ) = q := by
        rw [Int.cast_natAbs, abs_of_nonpos (le_of_lt hneg), Int.cast_neg,
          neg_neg, hq]
      rw [if_pos rfl, hval]
    · have hshape : printNumChars q ++ rest
          = natToChars q.num.natAbs ++ rest := by
        unfold printNumChars
        rw [if_pos hden, if_neg hneg]
      rw [hshape]
      obtain ⟨c, cs, hcons⟩ :=
        List.exists_cons_of_ne_nil (natToChars_ne_nil q.num.natAbs)
      have hds := natToChars_all_digits q.num.natAbs
      rw [parseNumber_eq_aux]
      · rw [parseNumAux_nat false q.num.natAbs rest hrest]
        have hval : ((q.num.natAbs : ℕ) : ℚ) = q := by
          rw [Int.cast_natAbs, abs_of_nonneg (not_lt.mp hneg), hq]
        rw [if_neg (by decide : ¬ false = true), hval]
      · rw [hcons, List.cons_append, List.head?_cons]
        intro h
        simp only [Option.some.injEq] at h
        subst h
        have hc := hds '-' (hcons ▸ List.mem_cons_self _ _)
        exact absurd hc (by decide)
  · have hqm : (((qMul q 1000000).num : ℤ) : ℚ) = q * 1000000 := by
      rw [Rat.coe_int_num_of_den_eq_one hwf, qMul_eq]
    have hsign : (qMul q 1000000).num < 0 ↔ q < 0 := by
      rw [Rat.num_neg, qMul_eq]
      constructor
      · intro h
        nlinarith
      · intro h
        nlinarith
    have hsignq : (q.num < 0) ↔ q < 0 := Rat.num_neg
    have hFlt : (qMul q 1000000).num.natAbs % 1000000 < 1000000 :=
      Nat.mod_lt _ (by norm_num)
    have hIF : 1000000 * ((qMul q 1000000).num.natAbs / 1000000)
        + (qMul q 1000000).num.natAbs % 1000000
        = (qMul q 1000000).num.natAbs := Nat.div_add_mod _ _
    have hnatq : (((qMul q 1000000).num.natAbs : ℕ) : ℚ)
        = (((qMul q 1000000).num.natAbs / 1000000 : ℕ) : ℚ) * 1000000
          + (((qMul q 1000000).num.natAbs % 1000000 : ℕ) : ℚ) := by
      rw [show (((qMul q 1000000).num.natAbs / 1000000 : ℕ) : ℚ) * 1000000
            = (((qMul q 1000000).num.natAbs / 1000000 * 1000000 : ℕ) : ℚ) by
          push_cast
          ring]
      rw [← Nat.cast_add]
      congr 1
      omega
    by_cases hneg : q.num < 0
    · have hmneg : ((qMul q 1000000).num : ℤ) ≤ 0 :=
        le_of_lt (hsign.mpr (hsignq.mp hneg))
      have hshape : printNumChars q ++ rest
          = '-' :: (natToChars ((qMul q 1000000).num.natAbs / 1000000)
              ++ '.' :: (padZeros 6 (natToChars ((qMul q 1000000).num.natAbs % 1000000))
                ++ rest)) := by
        unfold printNumChars
        rw [if_neg hden, if_pos hneg]
        simp [List.append_assoc]
      rw [hshape]
      unfold parseNumber
      simp only [List.head?_cons, List.tail_cons]
      rw [if_pos trivial, parseNumAux_frac true _ _ hFlt rest hrest, if_pos rfl]
      have habs : (((qMul q 1000000).num.natAbs : ℕ) : ℚ)
          = -(((qMul q 1000000).num : ℤ) : ℚ) := by
        rw [Int.cast_natAbs, abs_of_nonpos hmneg, Int.cast_neg]
      have hval : -((((qMul q 1000000).num.natAbs / 1000000 : ℕ) : ℚ)
            + (((qMul q 1000000).num.natAbs % 1000000 : ℕ) : ℚ) / 1000000) = q := by
        have h1 := hnatq
        rw [habs, hqm] at h1
        have h2 : (1000000 : ℚ) ≠ 0 := by norm_num
        field_simp at h1 ⊢
        linarith
      rw [hval]
    · have hmpos : (0 : ℤ) ≤ ((qMul q 1000000).num : ℤ) := by
        by_contra hcon
        exact hneg (hsignq.mpr (hsign.mp (lt_of_not_le hcon)))
      have hshape : printNumChars q ++ rest
          = natToChars ((qMul q 1000000).num.natAbs / 1000000)
              ++ '.' :: (padZeros 6 (natToChars ((qMul q 1000000).num.natAbs % 1000000))
                ++ rest) := by
        unfold printNumChars
        rw [if_neg hden, if_neg hneg]
        simp [List.append_assoc]
      rw [hshape]
      obtain ⟨c, cs, hcons⟩ := List.exists_cons_of_ne_nil
        (natToChars_ne_nil ((qMul q 1000000).num.natAbs / 1000000))
      have hds := natToChars_all_digits ((qMul q 1000000).num.natAbs / 1000000)
      rw [parseNumber_eq_aux]
      · rw [parseNumAux_frac false _ _ hFlt rest hrest,
          if_neg (by decide : ¬ false = true)]
        have habs : (((qMul q 1000000).num.natAbs : ℕ) : ℚ)
            = (((qMul q 1000000).num : ℤ) : ℚ) := by
          rw [Int.cast_natAbs, abs_of_nonneg hmpos]
        have hval : ((((qMul q 1000000).num.natAbs / 1000000 : ℕ) : ℚ)
              + (((qMul q 1000000).num.natAbs % 1000000 : ℕ) : ℚ) / 1000000) = q := by
          have h1 := hnatq
          rw [habs, hqm] at h1
          field_simp at h1 ⊢
          linarith
        rw [hval]
      · rw [hcons, List.cons_append, List.head?_cons]
        intro h
        simp only [Option.some.injEq] at h
        subst h
        have hc := hds '-' (hcons ▸ List.mem_cons_self _ _)
        exact absurd hc (by decide)

theorem skipWs_not (c : Char) (t : List Char) (h : isWsChar c = false) :
    skipWs (c :: t) = c :: t := by
  unfold skipWs
  rw [h]
  simp

theorem digit_props {c : Char} (hd : c.isDigit = true) :
    isWsChar c = false ∧ c ≠ ']' := by
  constructor
  · by_contra h
    rw [Bool.not_eq_false] at h
    unfold isWsChar at h
    simp only [decide_eq_true_eq] at h
    rcases h with rfl | rfl | rfl | rfl <;> exact absurd hd (by decide)
  · intro h
    subst h
    exact absurd hd (by decide)

theorem parseStringBody_ne (c : Char) (l : List Char)
    (h1 : c ≠ '"') (h2 : c ≠ '\\') (h3 : ¬ c.toNat < 32) :
    parseStringBody (c :: l)
      = (parseStringBody l).map (fun p => (c :: p.1, p.2)) := by
  rw [parseStringBody.eq_def]
  split
  · rename_i heq
    exact absurd heq (by simp)
  · rename_i r heq
    injection heq with hc _
    exact absurd hc h1
  · rename_i e r heq
    injection heq with hc _
    exact absurd hc h2
  · rename_i c2 r2 t2 h4 h5 h6
    injection h6 with hc hl
    subst hc
    subst hl
    rw [if_neg (not_or.mpr ⟨h3, h2⟩)]

theorem charOk_parse (s : List Char) (hs : ∀ c ∈ s, charOkB c = true)
    (rest : List Char) :
    parseStringBody (escapeList s ++ '"' :: rest) = some (s, rest) := by
  induction s with
  | nil => rfl
  | cons c r ih =>
    have hok := hs c (List.mem_cons_self c r)
    have hr : ∀ x ∈ r, charOkB x = true :=
      fun x hx => hs x (List.mem_cons_of_mem c hx)
    have ihr := ih hr
    by_cases e1 : c = '"'
    · subst e1
      have he : escapeChar '"' = ['\\', '"'] := by decide
      simp only [escapeList, he, List.append_assoc, List.cons_append,
        List.nil_append]
      rw [show parseStringBody ('\\' :: '"' :: (escapeList r ++ '"' :: rest))
            = (parseStringBody (escapeList r ++ '"' :: rest)).map
              (fun p => ('"' :: p.1, p.2)) from by
          rw [parseStringBody.eq_def]
          rfl, ihr]
      rfl
    by_cases e2 : c = '\\'
    · subst e2
      have he : escapeChar '\\' = ['\\', '\\'] := by decide
      simp only [escapeList, he, List.append_assoc, List.cons_append,
        List.nil_append]
      rw [show parseStringBody ('\\' :: '\\' :: (escapeList r ++ '"' :: rest))
            = (parseStringBody (escapeList r ++ '"' :: rest)).map
              (fun p => ('\\' :: p.1, p.2)) from by
          rw [parseStringBody.eq_def]
          rfl, ihr]
      rfl
    by_cases e3 : c = '\n'
    · subst e3
      have he : escapeChar '\n' = ['\\', 'n'] := by decide
      simp only [escapeList, he, List.append_assoc, List.cons_append,
        List.nil_append]
      rw [show parseStringBody ('\\' :: 'n' :: (escapeList r ++ '"' :: rest))
            = (parseStringBody (escapeList r ++ '"' :: rest)).map
              (fun p => ('\n' :: p.1, p.2)) from by
          rw [parseStringBody.eq_def]
          rfl, ihr]
      rfl
    by_cases e4 : c = '\t'
    · subst e4
      have he : escapeChar '\t' = ['\\', 't'] := by decide
      simp only [escapeList, he, List.append_assoc, List.cons_append,
        List.nil_append]
      rw [show parseStringBody ('\\' :: 't' :: (escapeList r ++ '"' :: rest))
            = (parseStringBody (escapeList r ++ '"' :: rest)).map
              (fun p => ('\t' :: p.1, p.2)) from by
          rw [parseStringBody.eq_def]
          rfl, ihr]
      rfl
    by_cases e5 : c = '\r'
    · subst e5
      have he : escapeChar '\r' = ['\\', 'r'] := by decide
      simp only [escapeList, he, List.append_assoc, List.cons_append,
        List.nil_append]
      rw [show parseStringBody ('\\' :: 'r' :: (escapeList r ++ '"' :: rest))
            = (parseStringBody (escapeList r ++ '"' :: rest)).map
              (fun p => ('\r' :: p.1, p.2)) from by
          rw [parseStringBody.eq_def]
          rfl, ihr]
      rfl
    have hesc : escapeChar c = [c] := by
      unfold escapeChar
      rw [if_neg e1, if_neg e2, if_neg e3, if_neg e4, if_neg e5]
    have h32 : ¬ c.toNat < 32 := by
      unfold charOkB at hok
      simp only [decide_eq_true_eq] at hok
      rcases hok with h | rfl | rfl | rfl
      · omega
      · exact absurd rfl e3
      · exact absurd rfl e4
      · exact absurd rfl e5
    simp only [escapeList, hesc, List.append_assoc, List.cons_append,
      List.nil_append]
    rw [parseStringBody_ne c _ e1 e2 h32, ihr]
    rfl

theorem parseVal_str_go (fuel : Nat) (r : List Char) :
    parseVal (fuel + 1) ('"' :: r)
      = (parseStringBody r).map (fun p => (JValue.str ⟨p.1⟩, p.2)) := rfl

theorem parseVal_arr_go (fuel : Nat) (c : Char) (t : List Char)
    (hc : c ≠ ']') (hw : isWsChar c = false) :
    parseVal (fuel + 1) ('[' :: c :: t)
      = (parseItems fuel (c :: t)).map (fun p => (JValue.arr p.1, p.2)) := by
  rw [parseVal.eq_def]
  have hskip : skipWs ('[' :: c :: t) = '[' :: c :: t :=
    skipWs_not '[' (c :: t) (by decide)
  split
  · rename_i x r heq
    exact absurd heq (by omega)
  · rename_i x1 x2 f heq
    have hf : f = fuel := by omega
    subst hf
    simp only [hskip]
    simp only [skipWs_not c t hw]
    split
    · rename_i r₂ heq2
      injection heq2 with hhd _
      exact absurd hhd hc
    · rfl

theorem parseVal_num_start (fuel : Nat) (c : Char) (l : List Char)
    (hc : c.isDigit = true ∨ c = '-') :
    parseVal (fuel + 1) (c :: l)
      = (parseNumber (c :: l)).map (fun p => (JValue.num p.1, p.2)) := by
  have hw : isWsChar c = false := by
    rcases hc with hd | rfl
    · exact (digit_props hd).1
    · decide
  have hskip : skipWs (c :: l) = c :: l := skipWs_not c l hw
  rw [parseVal.eq_def]
  split
  · rename_i x r heq
    exact absurd heq (by omega)
  · rename_i x1 x2 f heq
    have hf : f = fuel := by omega
    subst hf
    split
    · rename_i x r heq
      rw [hskip] at heq
      injection heq with h _
      subst h
      rcases hc with hd | hd <;> exact absurd hd (by decide)
    · rename_i x r heq
      rw [hskip] at heq
      injection heq with h _
      subst h
      rcases hc with hd | hd <;> exact absurd hd (by decide)
    · rename_i x r heq
      rw [hskip] at heq
      injection heq with h _
      subst h
      rcases hc with hd | hd <;> exact absurd hd (by decide)
    · rename_i x r heq
      rw [hskip] at heq
      injection heq with h _
      subst h
      rcases hc with hd | hd <;> exact absurd hd (by decide)
    · rename_i x r heq
      rw [hskip] at heq
      injection heq with h _
      subst h
      rcases hc with hd | hd <;> exact absurd hd (by decide)
    · rename_i x r heq
      rw [hskip] at heq
      injection heq with h _
      subst h
      rcases hc with hd | hd <;> exact absurd hd (by decide)
    · rw [hskip]

theorem printNumChars_head (q : ℚ) :
    ∃ c t, printNumChars q = c :: t ∧ (c.isDigit = true ∨ c = '-') := by
  unfold printNumChars
  by_cases hden : q.den = 1
  · rw [if_pos hden]
    by_cases hneg : q.num < 0
    · rw [if_pos hneg]
      exact ⟨'-', natToChars q.num.natAbs, rfl, Or.inr rfl⟩
    · rw [if_neg hneg]
      obtain ⟨c, cs, hcons⟩ :=
        List.exists_cons_of_ne_nil (natToChars_ne_nil q.num.natAbs)
      have hd := natToChars_all_digits q.num.natAbs c
        (by rw [hcons]; exact List.mem_cons_self _ _)
      exact ⟨c, cs, hcons, Or.inl hd⟩
  · rw [if_neg hden]
    by_cases hneg : q.num < 0
    · rw [if_pos hneg]
      exact ⟨'-', natToChars ((qMul q 1000000).num.natAbs / 1000000)
        ++ '.' :: padZeros 6 (natToChars ((qMul q 1000000).num.natAbs % 1000000)),
        rfl, Or.inr rfl⟩
    · rw [if_neg hneg]
      obtain ⟨c, cs, hcons⟩ := List.exists_cons_of_ne_nil
        (natToChars_ne_nil ((qMul q 1000000).num.natAbs / 1000000))
      have hd := natToChars_all_digits ((qMul q 1000000).num.natAbs / 1000000) c
        (by rw [hcons]; exact List.mem_cons_self _ _)
      refine ⟨c, cs ++ '.' :: padZeros 6
        (natToChars ((qMul q 1000000).num.natAbs % 1000000)), ?_, Or.inl hd⟩
      simp [hcons]

theorem printJChars_head (v : JValue) :
    ∃ c t, printJChars v = c :: t ∧ isWsChar c = false ∧ c ≠ ']' := by
  cases v with
  | null => exact ⟨'n', _, rfl, by decide, by decide⟩
  | bool b =>
    cases b with
    | false => exact ⟨'f', _, rfl, by decide, by decide⟩
    | true => exact ⟨'t', _, rfl, by decide, by decide⟩
  | num q =>
    obtain ⟨c, t, hct, hc⟩ := printNumChars_head q
    rcases hc with hd | rfl
    · exact ⟨c, t, hct, (digit_props hd).1, (digit_props hd).2⟩
    · exact ⟨'-', t, hct, by decide, by decide⟩
  | str s => exact ⟨'"', _, rfl, by decide, by decide⟩
  | arr xs => exact ⟨'[', _, rfl, by decide, by decide⟩
  | obj kvs => exact ⟨'\x7b', _, rfl, by decide, by decide⟩

theorem printItemsChars_head (x : JValue) (xs : List JValue) :
    ∃ c t, printItemsChars (x :: xs) = c :: t ∧ isWsChar c = false ∧ c ≠ ']' := by
  obtain ⟨c, t, hct, h1, h2⟩ := printJChars_head x
  cases xs with
  | nil => exact ⟨c, t, by simp [printItemsChars, hct], h1, h2⟩
  | cons y ys =>
    exact ⟨c, t ++ ',' :: printItemsChars (y :: ys),
      by simp [printItemsChars, hct], h1, h2⟩

theorem printMembersChars_head (k : String) (v : JValue)
    (ms : List (String × JValue)) :
    ∃ t, printMembersChars ((k, v) :: ms) = '"' :: t := by
  cases ms with
  | nil =>
    exact ⟨escapeList k.data ++ '"' :: ':' :: printJChars v,
      by simp [printMembersChars, printStringChars]⟩
  | cons m ms2 =>
    exact ⟨escapeList k.data
        ++ '"' :: ':' :: (printJChars v ++ ',' :: printMembersChars (m :: ms2)),
      by simp [printMembersChars, printStringChars]⟩

theorem parseVal_obj_go (fuel : Nat) (t : List Char) :
    parseVal (fuel + 1) ('\x7b' :: '"' :: t)
      = (parseMembers fuel ('"' :: t)).map
          (fun p => (JValue.obj (mkPyDict p.1), p.2)) := rfl

theorem foldl_upsert_eq (kvs : List (String × JValue)) :
    ∀ acc : List (String × JValue),
    ((acc ++ kvs).map Prod.fst).Nodup →
    kvs.foldl (fun a kv => upsert a kv.1 kv.2) acc = acc ++ kvs := by
  induction kvs with
  | nil =>
    intro acc h
    simp
  | cons kv rest ih =>
    intro acc h
    obtain ⟨k, v⟩ := kv
    have h2 := h
    rw [List.map_append, List.nodup_append] at h2
    obtain ⟨h3, h4, h5⟩ := h2
    have hnotin : ∀ p ∈ acc, p.1 ≠ k := by
      intro p hp hpk
      have hm1 : p.1 ∈ acc.map Prod.fst := List.mem_map_of_mem Prod.fst hp
      have hm2 : p.1 ∈ ((k, v) :: rest).map Prod.fst := by
        simp [hpk]
      exact h5 hm1 hm2
    have hup : upsert acc k v = acc ++ [(k, v)] := by
      unfold upsert
      rw [if_neg]
      simp only [List.any_eq_true, decide_eq_true_eq, not_exists, not_and]
      exact fun p hp => hnotin p hp
    rw [List.foldl_cons]
    have hre : ((acc ++ [(k, v)] ++ rest).map Prod.fst).Nodup := by
      rw [List.append_assoc]
      simpa using h
    have := ih (acc ++ [(k, v)]) hre
    rw [show upsert acc (k, v).1 (k, v).2 = upsert acc k v from rfl, hup,
      this, List.append_assoc]
    rfl

theorem mkPyDict_eq (kvs : List (String × JValue))
    (h : (kvs.map Prod.fst).Nodup) : mkPyDict kvs = kvs := by
  unfold mkPyDict
  have := foldl_upsert_eq kvs [] (by simpa using h)
  simpa using this

mutual

theorem parse_print_val : ∀ (v : JValue) (fuel : Nat), sizeJ v ≤ fuel →
    wellformedB v = true → ∀ rest : List Char, restStop rest →
    parseVal fuel (printJChars v ++ rest) = some (v, rest)
  | .null, fuel, hf, hw, rest, hr => by
    obtain ⟨f, rfl⟩ : ∃ f, fuel = f + 1 :=
      ⟨fuel - 1, by simp [sizeJ] at hf; omega⟩
    rfl
  | .bool true, fuel, hf, hw, rest, hr => by
    obtain ⟨f, rfl⟩ : ∃ f, fuel = f + 1 :=
      ⟨fuel - 1, by simp [sizeJ] at hf; omega⟩
    rfl
  | .bool false, fuel, hf, hw, rest, hr => by
    obtain ⟨f, rfl⟩ : ∃ f, fuel = f + 1 :=
      ⟨fuel - 1, by simp [sizeJ] at hf; omega⟩
    rfl
  | .num q, fuel, hf, hw, rest, hr => by
    obtain ⟨f, rfl⟩ : ∃ f, fuel = f + 1 :=
      ⟨fuel - 1, by simp [sizeJ] at hf; omega⟩
    have hwq : (qMul q 1000000).den = 1 := by
      simpa [wellformedB] using hw
    obtain ⟨c, t, hct, hc⟩ := printNumChars_head q
    have hshape : printJChars (.num q) ++ rest = c :: (t ++ rest) := by
      simp [printJChars, hct]
    rw [hshape, parseVal_num_start f c (t ++ rest) hc,
      show c :: (t ++ rest) = printNumChars q ++ rest from by rw [hct]; rfl,
      parseNumber_print q hwq rest hr]
    rfl
  | .str s, fuel, hf, hw, rest, hr => by
    obtain ⟨f, rfl⟩ : ∃ f, fuel = f + 1 :=
      ⟨fuel - 1, by simp [sizeJ] at hf; omega⟩
    have hok : ∀ c ∈ s.data, charOkB c = true := by
      simpa [wellformedB, strOkB, List.all_eq_true] using hw
    have hshape : printJChars (.str s) ++ rest
        = '"' :: (escapeList s.data ++ '"' :: rest) := by
      simp [printJChars, printStringChars]
    rw [hshape, parseVal_str_go f _, charOk_parse s.data hok rest]
    rfl
  | .arr [], fuel, hf, hw, rest, hr => by
    obtain ⟨f, rfl⟩ : ∃ f, fuel = f + 1 :=
      ⟨fuel - 1, by simp [sizeJ] at hf; omega⟩
    rfl
  | .arr (x :: xs), fuel, hf, hw, rest, hr => by
    obtain ⟨f, rfl⟩ : ∃ f, fuel = f + 1 :=
      ⟨fuel - 1, by simp [sizeJ] at hf; omega⟩
    have hf2 : sizeItems (x :: xs) ≤ f := by
      simp [sizeJ, sizeItems] at hf ⊢
      omega
    have hw2 : wfItems (x :: xs) = true := by
      simpa [wellformedB] using hw
    obtain ⟨c, t, hct, hcw, hcb⟩ := printItemsChars_head x xs
    have hshape : printJChars (.arr (x :: xs)) ++ rest
        = '[' :: (c :: (t ++ ']' :: rest)) := by
      simp [printJChars, hct]
    rw [hshape, parseVal_arr_go f c _ hcb hcw,
      show c :: (t ++ ']' :: rest)
          = printItemsChars (x :: xs) ++ ']' :: rest from by rw [hct]; rfl,
      parse_print_items (x :: xs) f hf2 hw2 (by simp) rest hr]
    rfl
  | .obj [], fuel, hf, hw, rest, hr => by
    obtain ⟨f, rfl⟩ : ∃ f, fuel = f + 1 :=
      ⟨fuel - 1, by simp [sizeJ] at hf; omega⟩
    rfl
  | .obj ((k, v) :: ms), fuel, hf, hw, rest, hr => by
    obtain ⟨f, rfl⟩ : ∃ f, fuel = f + 1 :=
      ⟨fuel - 1, by simp [sizeJ] at hf; omega⟩
    have hf2 : sizeMembers ((k, v) :: ms) ≤ f := by
      simp [sizeJ, sizeMembers] at hf ⊢
      omega
    have hw2 := hw
    simp only [wellformedB, Bool.and_eq_true, decide_eq_true_eq] at hw2
    obtain ⟨hnd, hwm⟩ := hw2
    obtain ⟨t, hct⟩ := printMembersChars_head k v ms
    have hshape : printJChars (.obj ((k, v) :: ms)) ++ rest
        = '\x7b' :: ('"' :: (t ++ '\x7d' :: rest)) := by
      simp [printJChars, hct]
    rw [hshape, parseVal_obj_go f _,
      show '"' :: (t ++ '\x7d' :: rest)
          = printMembersChars ((k, v) :: ms) ++ '\x7d' :: rest from by
        rw [hct]; rfl,
      parse_print_members ((k, v) :: ms) f hf2 hwm (by simp) rest hr]
    simp [mkPyDict_eq _ hnd]

theorem parse_print_items : ∀ (xs : List JValue) (fuel : Nat),
    sizeItems xs ≤ fuel → wfItems xs = true → xs ≠ [] →
    ∀ rest : List Char, restStop rest →
    parseItems fuel (printItemsChars xs ++ ']' :: rest) = some (xs, rest)
  | [], _, _, _, hne, _, _ => absurd rfl hne
  | [x], fuel, hf, hw, hne, rest, hr => by
    obtain ⟨f, rfl⟩ : ∃ f, fuel = f + 1 :=
      ⟨fuel - 1, by simp [sizeItems] at hf; omega⟩
    have hfx : sizeJ x ≤ f := by simp [sizeItems] at hf; omega
    have hwx : wellformedB x = true := by
      simpa [wfItems, Bool.and_eq_true] using hw
    have h1 := parse_print_val x f hfx hwx (']' :: rest)
      (Or.inr (Or.inr (Or.inl ⟨rest, rfl⟩)))
    have hshape : printItemsChars [x] ++ ']' :: rest
        = printJChars x ++ ']' :: rest := by
      simp [printItemsChars]
    have hskip : skipWs (']' :: rest) = ']' :: rest :=
      skipWs_not ']' rest (by decide)
    rw [hshape]
    simp only [parseItems, h1, hskip]
  | x :: y :: ys, fuel, hf, hw, hne, rest, hr => by
    obtain ⟨f, rfl⟩ : ∃ f, fuel = f + 1 :=
      ⟨fuel - 1, by simp [sizeItems] at hf; omega⟩
    have hfx : sizeJ x ≤ f := by simp [sizeItems] at hf; omega
    have hfr : sizeItems (y :: ys) ≤ f := by
      simp [sizeItems] at hf ⊢
      omega
    have hw2 := hw
    simp only [wfItems, Bool.and_eq_true] at hw2
    have hwx : wellformedB x = true := hw2.1
    have hwr : wfItems (y :: ys) = true := by
      simp only [wfItems, Bool.and_eq_true]
      exact hw2.2
    have h1 := parse_print_val x f hfx hwx
      (',' :: (printItemsChars (y :: ys) ++ ']' :: rest))
      (Or.inr (Or.inl ⟨_, rfl⟩))
    have h2 := parse_print_items (y :: ys) f hfr hwr (by simp) rest hr
    have hshape : printItemsChars (x :: y :: ys) ++ ']' :: rest
        = printJChars x ++ (',' :: (printItemsChars (y :: ys) ++ ']' :: rest)) := by
      simp [printItemsChars]
    have hskip : skipWs (',' :: (printItemsChars (y :: ys) ++ ']' :: rest))
        = ',' :: (printItemsChars (y :: ys) ++ ']' :: rest) :=
      skipWs_not _ _ (by decide)
    rw [hshape]
    simp only [parseItems, h1, hskip, h2, Option.map_some']

theorem parse_print_members : ∀ (kvs : List (String × JValue)) (fuel : Nat),
    sizeMembers kvs ≤ fuel → wfMembers kvs = true → kvs ≠ [] →
    ∀ rest : List Char, restStop rest →
    parseMembers fuel (printMembersChars kvs ++ '\x7d' :: rest) = some (kvs, rest)
  | [], _, _, _, hne, _, _ => absurd rfl hne
  | [(k, v)], fuel, hf, hw, hne, rest, hr => by
    obtain ⟨f, rfl⟩ : ∃ f, fuel = f + 1 :=
      ⟨fuel - 1, by simp [sizeMembers] at hf; omega⟩
    have hfv : sizeJ v ≤ f := by simp [sizeMembers] at hf; omega
    have hw2 := hw
    simp only [wfMembers, Bool.and_eq_true] at hw2
    obtain ⟨⟨hks, hwv⟩, -⟩ := hw2
    have hok : ∀ c ∈ k.data, charOkB c = true := by
      simpa [strOkB, List.all_eq_true] using hks
    have h1 := charOk_parse k.data hok (':' :: (printJChars v ++ '\x7d' :: rest))
    have h2 := parse_print_val v f hfv hwv ('\x7d' :: rest)
      (Or.inr (Or.inr (Or.inr ⟨rest, rfl⟩)))
    have hshape : printMembersChars [(k, v)] ++ '\x7d' :: rest
        = '"' :: (escapeList k.data
            ++ '"' :: (':' :: (printJChars v ++ '\x7d' :: rest))) := by
      simp [printMembersChars, printStringChars]
    have hsk1 : skipWs ('"' :: (escapeList k.data
          ++ '"' :: (':' :: (printJChars v ++ '\x7d' :: rest))))
        = '"' :: (escapeList k.data
            ++ '"' :: (':' :: (printJChars v ++ '\x7d' :: rest))) :=
      skipWs_not _ _ (by decide)
    have hsk2 : skipWs (':' :: (printJChars v ++ '\x7d' :: rest))
        = ':' :: (printJChars v ++ '\x7d' :: rest) :=
      skipWs_not _ _ (by decide)
    have hsk3 : skipWs ('\x7d' :: rest) = '\x7d' :: rest :=
      skipWs_not _ _ (by decide)
    rw [hshape]
    simp only [parseMembers, hsk1, h1, hsk2, h2, hsk3]
  | (k, v) :: m :: ms, fuel, hf, hw, hne, rest, hr => by
    obtain ⟨f, rfl⟩ : ∃ f, fuel = f + 1 :=
      ⟨fuel - 1, by simp [sizeMembers] at hf; omega⟩
    have hfv : sizeJ v ≤ f := by simp [sizeMembers] at hf; omega
    have hfm : sizeMembers (m :: ms) ≤ f := by
      simp [sizeMembers] at hf ⊢
      omega
    have hw2 := hw
    simp only [wfMembers, Bool.and_eq_true] at hw2
    obtain ⟨⟨hks, hwv⟩, hwm2⟩ := hw2
    have hwm : wfMembers (m :: ms) = true := by
      simp only [wfMembers, Bool.and_eq_true]
      exact hwm2
    have hok : ∀ c ∈ k.data, charOkB c = true := by
      simpa [strOkB, List.all_eq_true] using hks
    have h1 := charOk_parse k.data hok
      (':' :: (printJChars v ++ ',' :: (printMembersChars (m :: ms) ++ '\x7d' :: rest)))
    have h2 := parse_print_val v f hfv hwv
      (',' :: (printMembersChars (m :: ms) ++ '\x7d' :: rest))
      (Or.inr (Or.inl ⟨_, rfl⟩))
    have h3 := parse_print_members (m :: ms) f hfm hwm (by simp) rest hr
    have hshape : printMembersChars ((k, v) :: m :: ms) ++ '\x7d' :: rest
        = '"' :: (escapeList k.data ++ '"' :: (':' :: (printJChars v
            ++ ',' :: (printMembersChars (m :: ms) ++ '\x7d' :: rest)))) := by
      simp [printMembersChars, printStringChars]
    have hsk1 : skipWs ('"' :: (escapeList k.data ++ '"' :: (':' :: (printJChars v
          ++ ',' :: (printMembersChars (m :: ms) ++ '\x7d' :: rest)))))
        = '"' :: (escapeList k.data ++ '"' :: (':' :: (printJChars v
            ++ ',' :: (printMembersChars (m :: ms) ++ '\x7d' :: rest)))) :=
      skipWs_not _ _ (by decide)
    have hsk2 : skipWs (':' :: (printJChars v
          ++ ',' :: (printMembersChars (m :: ms) ++ '\x7d' :: rest)))
        = ':' :: (printJChars v
            ++ ',' :: (printMembersChars (m :: ms) ++ '\x7d' :: rest)) :=
      skipWs_not _ _ (by decide)
    have hsk3 : skipWs (',' :: (printMembersChars (m :: ms) ++ '\x7d' :: rest))
        = ',' :: (printMembersChars (m :: ms) ++ '\x7d' :: rest) :=
      skipWs_not _ _ (by decide)
    rw [hshape]
    simp only [parseMembers, hsk1, h1, hsk2, h2, hsk3, h3, Option.map_some']

end

mutual

theorem sizeJ_le_print : ∀ v : JValue, sizeJ v ≤ (printJChars v).length
  | .null => by decide
  | .bool true => by decide
  | .bool false => by decide
  | .num q => by
    obtain ⟨c, t, hct, -⟩ := printNumChars_head q
    simp [sizeJ, printJChars, hct]
  | .str s => by simp [sizeJ, printJChars, printStringChars]
  | .arr xs => by
    have h := sizeItems_le_print xs
    simp only [sizeJ, printJChars, List.length_cons, List.length_append,
      List.length_singleton]
    omega
  | .obj kvs => by
    have h := sizeMembers_le_print kvs
    simp only [sizeJ, printJChars, List.length_cons, List.length_append,
      List.length_singleton]
    omega

theorem sizeItems_le_print : ∀ xs : List JValue,
    sizeItems xs ≤ 1 + (printItemsChars xs).length
  | [] => by simp [sizeItems]
  | [x] => by
    have h := sizeJ_le_print x
    simp only [sizeItems, printItemsChars]
    omega
  | x :: y :: ys => by
    have h1 := sizeJ_le_print x
    have h2 := sizeItems_le_print (y :: ys)
    simp only [sizeItems, printItemsChars, List.length_append,
      List.length_cons] at h2 ⊢
    omega

theorem sizeMembers_le_print : ∀ kvs : List (String × JValue),
    sizeMembers kvs ≤ 1 + (printMembersChars kvs).length
  | [] => by simp [sizeMembers]
  | [(k, v)] => by
    have h := sizeJ_le_print v
    simp only [sizeMembers, printMembersChars, List.length_append,
      List.length_cons]
    omega
  | (k, v) :: m :: ms => by
    have h1 := sizeJ_le_print v
    have h2 := sizeMembers_le_print (m :: ms)
    simp only [sizeMembers, printMembersChars, List.length_append,
      List.length_cons] at h2 ⊢
    omega

end

theorem jsonDecode_dumps (v : JValue) (hwf : wellformedB v = true) :
    jsonDecode (jsonDumps v) = some v := by
  have hfuel : sizeJ v ≤ 2 * (printJChars v).length + 2 := by
    have := sizeJ_le_print v
    omega
  have h := parse_print_val v (2 * (printJChars v).length + 2) hfuel hwf []
    (Or.inl rfl)
  rw [List.append_nil] at h
  simp only [jsonDecode, jsonDumps, jsonDecodeChars]
  rw [h]
  rfl

theorem find_replace (db : List StoredRow) (i t c s : String)
    (h : db.any (fun row => row.id = i) = true) :
    (db.map (fun row => if row.id = i then ⟨i, t, c, s⟩ else row)).find?
        (fun row => row.id = i) = some ⟨i, t, c, s⟩ := by
  induction db with
  | nil => simp at h
  | cons row rows ih =>
    by_cases hid : row.id = i
    · simp [List.map_cons, List.find?_cons, hid]
    · simp only [List.any_cons, Bool.or_eq_true, decide_eq_true_eq] at h
      rcases h with h | h
    -- handled below
      · exact absurd h hid
      · simp only [List.map_cons, if_neg hid, List.find?_cons]
        rw [show (decide (row.id = i)) = false by simp [hid]]
        exact ih h

theorem find_append_new (db : List StoredRow) (i t c s : String)
    (h : db.any (fun row => row.id = i) = false) :
    ((db ++ [(⟨i, t, c, s⟩ : StoredRow)]).find? (fun row => row.id = i))
      = some ⟨i, t, c, s⟩ := by
  induction db with
  | nil => simp [List.find?]
  | cons row rows ih =>
    simp only [List.any_cons, Bool.or_eq_false_iff, decide_eq_false_iff_not] at h
    obtain ⟨h1, h2⟩ := h
    simp only [List.cons_append, List.find?_cons]
    rw [show (decide (row.id = i)) = false by simp [h1]]
    exact ih (by simpa using h2)

theorem findRow_save (db : List StoredRow) (i t c s : String) :
    findRow (load_all (save_result db i t c s)) i = some ⟨i, t, c, s⟩ := by
  unfold findRow load_all save_result
  by_cases h : db.any (fun row => row.id = i) = true
  · rw [if_pos h]
    exact find_replace db i t c s h
  · rw [if_neg h]
    exact find_append_new db i t c s (by simpa using h)

/-- A consolidated-result-shaped value used to exercise the store. -/
def exampleStored : JValue :=
  .obj [("requisito_original", .str "El sistema debe responder"),
        ("promedio", .num (mkRat 161 2)),
        ("atributos", .obj [("claridad", .obj [("valor", .str "alta"),
                                               ("sugerencia", .str "ok")])]),
        ("sugerencias", .arr [.str "mejorar la trazabilidad"]),
        ("aprobado", .bool true),
        ("nota", .null)]

/-- **C9**: storing a consolidated result under its requirement id
(`save_result`, an INSERT-OR-REPLACE keyed by the primary key) and
reloading via `load_all` returns the serialized row unchanged, and
deserializing it (`json.loads` of the `json.dumps` output) yields a value
structurally equal to the stored one: the store round trip is lossless
for every well-formed value of the data model (numbers of at most six
decimals, printable strings, objects with duplicate-free keys — which
covers every consolidated result `orchestrate` produces). -/
theorem c9_save_load_roundtrip (db : List StoredRow) (i t c : String)
    (v : JValue) (hwf : wellformedB v = true) :
    findRow (load_all (save_result db i t c (jsonDumps v))) i
        = some ⟨i, t, c, jsonDumps v⟩
      ∧ jsonDecode (jsonDumps v) = some v :=
  ⟨findRow_save db i t c (jsonDumps v), jsonDecode_dumps v hwf⟩

/-- Witness for **C9**: a concrete result value round-trips through a
store that already holds a row under the same id (the replace branch). -/
theorem c9_witness :
    wellformedB exampleStored = true ∧
      (findRow (load_all (save_result [⟨"R1", "old", "old", "x"⟩] "R1"
            "El sistema debe responder" "ctx" (jsonDumps exampleStored))) "R1"
          = some ⟨"R1", "El sistema debe responder", "ctx",
              jsonDumps exampleStored⟩
        ∧ jsonDecode (jsonDumps exampleStored) = some exampleStored) :=
  ⟨by decide, c9_save_load_roundtrip [⟨"R1", "old", "old", "x"⟩] "R1"
    "El sistema debe responder" "ctx" exampleStored (by decide)⟩

end AgentModel
